import Mathlib

/-!
Verification of the color palette generator core (src/palette_generator.py):
hex parsing, HLS conversion, color operations, WCAG contrast, harmony
generation and the accessibility audit, with proofs about the frozen claims.

Numeric model: Python float arithmetic is modelled over the exact rationals
(and over the reals for the WCAG luminance power 2.4), and the built-in
round function is modelled as exact half-to-even rounding at the requested
number of decimals.  The extra tolerance of int(s, 16) for surrounding
whitespace, an optional sign and underscores between digits is outside the
model; no claim exercises such inputs.
-/

/-- Error kinds raised by the Python code: ValueError for a malformed color,
ValueError for an unknown harmony kind, and ZeroDivisionError from an
unguarded division. -/
inductive PalErr where
  | invalidColor
  | unknownHarmony
  | zeroDiv
deriving DecidableEq

/-- Monadic map over Option, mirroring a Python loop that stops at the first
raised exception. -/
def optionMapList {α β : Type} (f : α → Option β) : List α → Option (List β)
  | [] => some []
  | a :: l => do
    let b ← f a
    let bs ← optionMapList f l
    pure (b :: bs)

/-- Monadic map over Except, mirroring a Python loop that stops at the first
raised exception. -/
def exceptMapList {α β : Type} (f : α → Except PalErr β) : List α → Except PalErr (List β)
  | [] => .ok []
  | a :: l => do
    let b ← f a
    let bs ← exceptMapList f l
    pure (b :: bs)

/-- Propagate a parse failure (Python ValueError) into Except. -/
def liftO {α : Type} : Option α → Except PalErr α
  | some a => .ok a
  | none => .error .invalidColor

instance exceptDecEq {ε α : Type} [DecidableEq ε] [DecidableEq α] :
    DecidableEq (Except ε α)
  | .ok a, .ok b => if h : a = b then .isTrue (by rw [h]) else .isFalse (by simp [h])
  | .ok _, .error _ => .isFalse (by simp)
  | .error _, .ok _ => .isFalse (by simp)
  | .error a, .error b => if h : a = b then .isTrue (by rw [h]) else .isFalse (by simp [h])

/-- Python int(x) truncation toward zero on a rational. -/
def pyInt (q : ℚ) : ℤ := if q < 0 then ⌈q⌉ else ⌊q⌋

/-- Python modulo on rationals: x - m * floor (x / m), the result takes the
sign of the divisor. -/
def pyMod (x m : ℚ) : ℚ := x - m * ⌊x / m⌋

/-- Half-to-even rounding of a rational to an integer: the semantics of the
built-in round on floats (ties go to the even integer). -/
def roundEvenQ (q : ℚ) : ℤ :=
  if q - ⌊q⌋ < 1/2 then ⌊q⌋
  else if 1/2 < q - ⌊q⌋ then ⌊q⌋ + 1
  else if ⌊q⌋ % 2 = 0 then ⌊q⌋ else ⌊q⌋ + 1

/-- Python round(q, n) on rationals. -/
def pyRound (n : ℕ) (q : ℚ) : ℚ := (roundEvenQ (q * 10 ^ n) : ℚ) / 10 ^ n

/-- Value of one hexadecimal digit character (0-9, a-f, A-F). -/
def hexDigitVal (c : Char) : Option ℕ :=
  if 48 ≤ c.toNat ∧ c.toNat ≤ 57 then some (c.toNat - 48)
  else if 97 ≤ c.toNat ∧ c.toNat ≤ 102 then some (c.toNat - 87)
  else if 65 ≤ c.toNat ∧ c.toNat ≤ 70 then some (c.toNat - 55)
  else none

/-- Python int(s, 16) on a list of hex digit characters: fails on an empty
string or on any non-hex character. -/
def pyIntHex (l : List Char) : Option ℕ :=
  if l.isEmpty then none
  else (optionMapList hexDigitVal l).map fun ds => ds.foldl (fun a d => 16 * a + d) 0

/-- hex_color.lstrip("#"): drop every leading hash character. -/
def cleanHex (s : String) : List Char := s.toList.dropWhile (fun c => c == '#')

/-- h[0]*2 + h[1]*2 + h[2]*2 on a 3-character string; identity otherwise
(the source applies it under a length-3 test). -/
def expand3 : List Char → List Char
  | [a, b, c] => [a, a, b, b, c, c]
  | l => l

/-- hex_to_rgb: parse a #rrggbb or #rgb string into channel values, reading
the slices h[0:2], h[2:4], h[4:6] with no length validation. -/
def hex_to_rgb (s : String) : Option (ℕ × ℕ × ℕ) := do
  let h := expand3 (cleanHex s)
  let r ← pyIntHex (h.take 2)
  let g ← pyIntHex ((h.drop 2).take 2)
  let b ← pyIntHex ((h.drop 4).take 2)
  pure (r, g, b)

/-- One lowercase hex digit character for a value below 16. -/
def hexChar (n : ℕ) : Char :=
  if n < 10 then Char.ofNat (48 + n) else Char.ofNat (87 + n)

/-- The %02x format of a byte value. -/
def byteHex (n : ℕ) : List Char := [hexChar (n / 16), hexChar (n % 16)]

/-- rgb_to_hex: clamp each channel to [0, 255], then format as #rrggbb. -/
def rgb_to_hex (r g b : ℤ) : String :=
  String.mk ('#' :: (byteHex (max 0 (min 255 r)).toNat
    ++ byteHex (max 0 (min 255 g)).toNat ++ byteHex (max 0 (min 255 b)).toNat))

/-- colorsys.rgb_to_hls over the exact rationals. -/
def rgb_to_hls (r g b : ℚ) : ℚ × ℚ × ℚ :=
  let maxc := max r (max g b)
  let minc := min r (min g b)
  let sumc := maxc + minc
  let rangec := maxc - minc
  let l := sumc / 2
  if minc = maxc then (0, l, 0)
  else
    let s := if l ≤ 1/2 then rangec / sumc else rangec / (2 - sumc)
    let rc := (maxc - r) / rangec
    let gc := (maxc - g) / rangec
    let bc := (maxc - b) / rangec
    let h := if r = maxc then bc - gc else if g = maxc then 2 + rc - bc else 4 + gc - rc
    (pyMod (h / 6) 1, l, s)

/-- The helper _v of colorsys.hls_to_rgb. -/
def colorsysV (m1 m2 hue : ℚ) : ℚ :=
  let hue := pyMod hue 1
  if hue < 1/6 then m1 + (m2 - m1) * hue * 6
  else if hue < 1/2 then m2
  else if hue < 2/3 then m1 + (m2 - m1) * (2/3 - hue) * 6
  else m1

/-- colorsys.hls_to_rgb over the exact rationals. -/
def hls_to_rgb (h l s : ℚ) : ℚ × ℚ × ℚ :=
  if s = 0 then (l, l, l)
  else
    let m2 := if l ≤ 1/2 then l * (1 + s) else l + s - l * s
    let m1 := 2 * l - m2
    (colorsysV m1 m2 (h + 1/3), colorsysV m1 m2 h, colorsysV m1 m2 (h - 1/3))

/-- hls_hex: build a hex string from HLS, h in [0,360], l and s in [0,1]. -/
def hls_hex (h l s : ℚ) : String :=
  let rgb := hls_to_rgb (h / 360) l s
  rgb_to_hex (pyInt (rgb.1 * 255)) (pyInt (rgb.2.1 * 255)) (pyInt (rgb.2.2 * 255))

/-- The computation of rotate_hue on already-parsed channel values. -/
def rotate_hue_rgb (r g b : ℕ) (degrees : ℚ) : String :=
  let hls := rgb_to_hls ((r : ℚ) / 255) ((g : ℚ) / 255) ((b : ℚ) / 255)
  hls_hex (pyMod (hls.1 * 360 + degrees) 360) hls.2.1 hls.2.2

/-- rotate_hue: add degrees to the hue, wrapping modulo 360. -/
def rotate_hue (s : String) (degrees : ℚ) : Option String :=
  (hex_to_rgb s).map fun c => rotate_hue_rgb c.1 c.2.1 c.2.2 degrees

/-- The computation of adjust_lightness on already-parsed channel values. -/
def adjust_lightness_rgb (r g b : ℕ) (delta : ℚ) : String :=
  let hls := rgb_to_hls ((r : ℚ) / 255) ((g : ℚ) / 255) ((b : ℚ) / 255)
  hls_hex (hls.1 * 360) (max 0 (min 1 (hls.2.1 + delta))) hls.2.2

/-- adjust_lightness: add delta to the lightness, clamped to [0, 1]. -/
def adjust_lightness (s : String) (delta : ℚ) : Option String :=
  (hex_to_rgb s).map fun c => adjust_lightness_rgb c.1 c.2.1 c.2.2 delta

/-- blend_colors: clamp the ratio argument to [0,1] and linearly interpolate
each channel, truncated by int before hex encoding. -/
def blend_colors (hex1 hex2 : String) (t : ℚ) : Option String := do
  let c1 ← hex_to_rgb hex1
  let c2 ← hex_to_rgb hex2
  let r := max 0 (min 1 t)
  pure (rgb_to_hex
    (pyInt ((c1.1 : ℚ) + ((c2.1 : ℚ) - (c1.1 : ℚ)) * r))
    (pyInt ((c1.2.1 : ℚ) + ((c2.2.1 : ℚ) - (c1.2.1 : ℚ)) * r))
    (pyInt ((c1.2.2 : ℚ) + ((c2.2.2 : ℚ) - (c1.2.2 : ℚ)) * r)))

/-- Python range(n), empty for nonpositive n. -/
def pyRange (n : ℤ) : List ℤ := (List.range n.toNat).map Int.ofNat

/-- generate_tints_shades: lightness scale from 0.95 down to 0.05 at fixed
hue and saturation.  The division by steps-1 sits inside the comprehension,
so steps = 1 raises ZeroDivisionError on the first iteration, and steps
below 1 yields an empty list without any guard. -/
def generate_tints_shades (s : String) (steps : ℤ) : Except PalErr (List String) :=
  match hex_to_rgb s with
  | none => .error .invalidColor
  | some c =>
    let hls := rgb_to_hls ((c.1 : ℚ) / 255) ((c.2.1 : ℚ) / 255) ((c.2.2 : ℚ) / 255)
    exceptMapList (fun (i : ℤ) =>
        if steps - 1 = 0 then .error .zeroDiv
        else .ok (hls_hex (hls.1 * 360) (0.95 - (i : ℚ) * (0.90 / ((steps : ℚ) - 1))) hls.2.2))
      (pyRange steps)

/-- generate_gradient_stops: stops evenly spaced blends; the division by
stops-1 is evaluated before blend_colors is entered, so stops = 1 raises
ZeroDivisionError and stops below 1 yields an empty list. -/
def generate_gradient_stops (h1 h2 : String) (stops : ℤ) : Except PalErr (List String) :=
  exceptMapList (fun (i : ℤ) =>
      if stops - 1 = 0 then .error .zeroDiv
      else liftO (blend_colors h1 h2 ((i : ℚ) / ((stops : ℚ) - 1))))
    (pyRange stops)

open Classical in
/-- The channel linearization of the source (its name starts with an
underscore there); the float power 2.4 is modelled with the real power
function. -/
noncomputable def linearize (c : ℕ) : ℝ :=
  let x : ℝ := (c : ℝ) / 255
  if x ≤ 0.03928 then x / 12.92 else ((x + 0.055) / 1.055) ^ (2.4 : ℝ)

/-- relative_luminance: weighted sum of the linearized channels. -/
noncomputable def relative_luminance (s : String) : Option ℝ :=
  (hex_to_rgb s).map fun c =>
    0.2126 * linearize c.1 + 0.7152 * linearize c.2.1 + 0.0722 * linearize c.2.2

open Classical in
/-- Half-to-even rounding on the reals (the built-in round on floats). -/
noncomputable def roundEvenR (x : ℝ) : ℤ :=
  if x - ⌊x⌋ < 1/2 then ⌊x⌋
  else if 1/2 < x - ⌊x⌋ then ⌊x⌋ + 1
  else if ⌊x⌋ % 2 = 0 then ⌊x⌋ else ⌊x⌋ + 1

/-- Python round(x, n) on reals. -/
noncomputable def pyRoundR (n : ℕ) (x : ℝ) : ℝ := (roundEvenR (x * 10 ^ n) : ℝ) / 10 ^ n

/-- wcag_contrast_ratio of the source: (bright + 0.05) / (dark + 0.05) over
the max/min luminance, rounded to two decimals. -/
noncomputable def wcag_contrast (c1 c2 : String) : Option ℝ := do
  let l1 ← relative_luminance c1
  let l2 ← relative_luminance c2
  pure (pyRoundR 2 ((max l1 l2 + 0.05) / (min l1 l2 + 0.05)))

open Classical in
/-- wcag_grade: AAA, AA, AA-Large or Fail, thresholds closed below. -/
noncomputable def wcag_grade (r : ℝ) : String :=
  if 7.0 ≤ r then "AAA" else if 4.5 ≤ r then "AA"
  else if 3.0 ≤ r then "AA-Large" else "Fail"

/-- The ColorSwatch dataclass. -/
structure ColorSwatch where
  hex : String
  name : String
  role : String
  hue : ℚ
  lightness : ℚ
  saturation : ℚ
deriving DecidableEq

/-- The post-init derivation of hue, lightness and saturation from the
already-parsed channels of the hex. -/
def swatchOf (hx nm rl : String) (c : ℕ × ℕ × ℕ) : ColorSwatch :=
  let hls := rgb_to_hls ((c.1 : ℚ) / 255) ((c.2.1 : ℚ) / 255) ((c.2.2 : ℚ) / 255)
  { hex := hx, name := nm, role := rl,
    hue := pyRound 2 (hls.1 * 360), lightness := pyRound 4 hls.2.1,
    saturation := pyRound 4 hls.2.2 }

/-- ColorSwatch construction including the post-init derivation of hue,
lightness and saturation from the hex (ValueError on a bad hex is none). -/
def mkColorSwatch (hx nm rl : String) : Option ColorSwatch :=
  (hex_to_rgb hx).map (swatchOf hx nm rl)

/-- The Palette dataclass. -/
structure Palette where
  id : String
  name : String
  base_color : String
  harmony : String
  colors : List ColorSwatch
  tags : List String
  created_at : String
  description : String
deriving DecidableEq

def text_roles : List String := ["text", "primary", "secondary", "accent"]

def bg_roles : List String := ["background", "surface", "muted"]

/-- Foreground candidates of a11y_check, with the positional fallback used
by the Python `or`: the first two swatches when the role filter is empty. -/
def foregrounds (p : Palette) : List ColorSwatch :=
  let f := p.colors.filter fun s => s.role ∈ text_roles
  if f.isEmpty then p.colors.take 2 else f

/-- Background candidates of a11y_check, falling back to the swatches from
index 2 onward when the role filter is empty. -/
def backgrounds (p : Palette) : List ColorSwatch :=
  let f := p.colors.filter fun s => s.role ∈ bg_roles
  if f.isEmpty then p.colors.drop 2 else f

/-- One entry of the checks list (the dict literal of the source, with the
nested fg and bg dicts flattened into four string fields; contrast is the
"ratio" entry). -/
structure AuditCheck where
  fg_name : String
  fg_hex : String
  bg_name : String
  bg_hex : String
  contrast : ℝ
  grade : String
  aa_normal : Bool
  aa_large : Bool
  aaa_normal : Bool

open Classical in
/-- Build one fg/bg check of a11y_check. -/
noncomputable def mkAuditCheck (fg bg : ColorSwatch) : Option AuditCheck :=
  (wcag_contrast fg.hex bg.hex).map fun r =>
    { fg_name := fg.name, fg_hex := fg.hex, bg_name := bg.name, bg_hex := bg.hex,
      contrast := r, grade := wcag_grade r,
      aa_normal := if 4.5 ≤ r then true else false,
      aa_large := if 3.0 ≤ r then true else false,
      aaa_normal := if 7.0 ≤ r then true else false }

/-- The summary dict of the audit report. -/
structure AuditSummary where
  total : ℕ
  pass_aa : ℕ
  fail_aa : ℕ
  pass_rate : ℚ
deriving DecidableEq

/-- The audit report dict. -/
structure AuditReport where
  palette_id : String
  palette_name : String
  checks : List AuditCheck
  summary : AuditSummary

/-- a11y_check: the full cross product of fg/bg contrast checks plus the
aggregate summary; the pass-rate division is guarded by max(1, total). -/
noncomputable def a11y_check (p : Palette) : Option AuditReport :=
  (optionMapList (fun fg => optionMapList (fun bg => mkAuditCheck fg bg) (backgrounds p))
      (foregrounds p)).map fun rows =>
    let checks := rows.flatten
    let passed := (checks.filter fun c => c.aa_normal).length
    { palette_id := p.id, palette_name := p.name, checks := checks,
      summary :=
        { total := checks.length, pass_aa := passed,
          fail_aa := checks.length - passed,
          pass_rate := pyRound 1 ((passed : ℚ) / ((max 1 checks.length : ℕ) : ℚ) * 100) } }

/-- The _HARMONY_ANGLES table. -/
def HARMONY_ANGLES : List (String × List ℚ) :=
  [("complementary", [0, 180]),
   ("triadic", [0, 120, 240]),
   ("analogous", [0, 30, 60]),
   ("monochromatic", []),
   ("split-complementary", [0, 150, 210]),
   ("tetradic", [0, 90, 180, 270])]

/-- The _ROLES positional role table. -/
def ROLES : List String :=
  ["primary", "secondary", "accent", "quaternary", "background", "surface", "muted", "text"]

/-- The fixed target-lightness steps of the monochromatic branch. -/
def monoSteps : List (ℚ × String) :=
  [(0.92, "background"), (0.75, "surface"), (0.55, "primary"),
   (0.35, "secondary"), (0.15, "text")]

/-- str.title() on the ASCII strings used here. -/
def pyTitleGo : Bool → List Char → List Char
  | _, [] => []
  | prev, c :: l =>
    (if c.isAlpha then (if prev then c.toLower else c.toUpper) else c) :: pyTitleGo c.isAlpha l

def pyTitle (s : String) : String := String.mk (pyTitleGo false s.toList)

/-- generate: the main palette factory.  The fresh uuid and the utcnow
timestamp are environment effects and are taken as the explicit inputs pid
and ts. -/
def generate (pid ts base_hex harmony_type nm : String) : Except PalErr Palette :=
  let h1 := expand3 (cleanHex base_hex)
  if h1.length ≠ 6 then .error .invalidColor
  else
    let full := String.mk ('#' :: h1)
    match HARMONY_ANGLES.lookup harmony_type with
    | none => .error .unknownHarmony
    | some angles =>
      match hex_to_rgb full with
      | none => .error .invalidColor
      | some c =>
        let hls := rgb_to_hls ((c.1 : ℚ) / 255) ((c.2.1 : ℚ) / 255) ((c.2.2 : ℚ) / 255)
        let l := hls.2.1
        let nm0 := if nm = "" then "color" else nm
        let swatchesE : Except PalErr (List ColorSwatch) :=
          if harmony_type = "monochromatic" then
            exceptMapList (fun q => do
                let cx ← liftO (adjust_lightness full (q.2.1 - l))
                liftO (mkColorSwatch cx (nm0 ++ "-" ++ toString (q.1 + 1)) q.2.2))
              monoSteps.enum
          else do
            let base ← exceptMapList (fun q => do
                let cx ← liftO (rotate_hue full q.2)
                liftO (mkColorSwatch cx (nm0 ++ "-" ++ toString (q.1 + 1))
                  (ROLES.getD q.1 ("color-" ++ toString (q.1 + 1)))))
              angles.enum
            let cl ← liftO (adjust_lightness full 0.38)
            let sl ← liftO (mkColorSwatch cl (nm0 ++ "-light") "background")
            let cd ← liftO (adjust_lightness full (-0.38))
            let sd ← liftO (mkColorSwatch cd (nm0 ++ "-dark") "text")
            pure (base ++ [sl, sd])
        swatchesE.map fun sws =>
          { id := pid,
            name := if nm = "" then pyTitle harmony_type ++ " Palette" else nm,
            base_color := full, harmony := harmony_type, colors := sws,
            tags := [harmony_type], created_at := ts, description := "" }

/-- The spec-side normal form for a Color: a hash followed by exactly six
lowercase hex digits. -/
def lowHexDigits : List Char :=
  "0123456789abcdef".toList

def isNormalizedHex (s : String) : Bool :=
  match s.toList with
  | '#' :: rest => rest.length = 6 && rest.all fun c => lowHexDigits.contains c
  | _ => false

/-- The keys of the harmony table. -/
def harmonyKeys : List String := HARMONY_ANGLES.map Prod.fst

/-- The angle table entry of a harmony kind (empty when absent). -/
def harmonyAngles (hk : String) : List ℚ := (HARMONY_ANGLES.lookup hk).getD []

/-- The channels a hex string parses to (defaulting to black), used to
state inversion results about generate. -/
def parsedOf (s : String) : ℕ × ℕ × ℕ := (hex_to_rgb s).getD (0, 0, 0)

/-- The swatch list generate builds in the non-monochromatic branch, as an
explicit function of the parsed base channels. -/
def nonmonoSwatches (c : ℕ × ℕ × ℕ) (nm0 : String) (angles : List ℚ) : List ColorSwatch :=
  (angles.enum.map fun q =>
    swatchOf (rotate_hue_rgb c.1 c.2.1 c.2.2 q.2) (nm0 ++ "-" ++ toString (q.1 + 1))
      (ROLES.getD q.1 ("color-" ++ toString (q.1 + 1)))
      (parsedOf (rotate_hue_rgb c.1 c.2.1 c.2.2 q.2)))
  ++ [swatchOf (adjust_lightness_rgb c.1 c.2.1 c.2.2 0.38) (nm0 ++ "-light") "background"
        (parsedOf (adjust_lightness_rgb c.1 c.2.1 c.2.2 0.38)),
      swatchOf (adjust_lightness_rgb c.1 c.2.1 c.2.2 (-0.38)) (nm0 ++ "-dark") "text"
        (parsedOf (adjust_lightness_rgb c.1 c.2.1 c.2.2 (-0.38)))]

/-- The swatch list generate builds in the monochromatic branch. -/
def monoSwatches (c : ℕ × ℕ × ℕ) (nm0 : String) : List ColorSwatch :=
  monoSteps.enum.map fun q =>
    swatchOf (adjust_lightness_rgb c.1 c.2.1 c.2.2
        (q.2.1 - (rgb_to_hls ((c.1 : ℚ) / 255) ((c.2.1 : ℚ) / 255) ((c.2.2 : ℚ) / 255)).2.1))
      (nm0 ++ "-" ++ toString (q.1 + 1)) q.2.2
      (parsedOf (adjust_lightness_rgb c.1 c.2.1 c.2.2
        (q.2.1 - (rgb_to_hls ((c.1 : ℚ) / 255) ((c.2.1 : ℚ) / 255) ((c.2.2 : ℚ) / 255)).2.1)))

/-! ## Combinator lemmas -/

theorem option_bind_some {α β : Type} (a : α) (f : α → Option β) :
    ((some a : Option α) >>= f) = f a := rfl

theorem option_bind_none {α β : Type} (f : α → Option β) :
    ((none : Option α) >>= f) = none := rfl

theorem except_bind_ok {α β : Type} (a : α) (f : α → Except PalErr β) :
    ((Except.ok a : Except PalErr α) >>= f) = f a := rfl

theorem except_bind_error {α β : Type} (e : PalErr) (f : α → Except PalErr β) :
    ((Except.error e : Except PalErr α) >>= f) = Except.error e := rfl

theorem optionMapList_some_iff {α β : Type} (f : α → Option β) (l : List α) (ys : List β) :
    optionMapList f l = some ys ↔ List.Forall₂ (fun a b => f a = some b) l ys := by
  induction l generalizing ys with
  | nil =>
    simp only [optionMapList, List.forall₂_nil_left_iff]
    exact ⟨fun h => by cases h; rfl, fun h => by rw [h]⟩
  | cons a l ih =>
    constructor
    · intro h
      cases hfa : f a with
      | none => rw [optionMapList, hfa, option_bind_none] at h; exact absurd h (by simp)
      | some b =>
        rw [optionMapList, hfa, option_bind_some] at h
        cases hrec : optionMapList f l with
        | none => rw [hrec, option_bind_none] at h; exact absurd h (by simp)
        | some bs =>
          rw [hrec, option_bind_some] at h
          have hys : b :: bs = ys := Option.some.inj h
          exact hys ▸ List.Forall₂.cons hfa ((ih bs).mp hrec)
    · intro h
      rcases h with _ | ⟨hfa, hrest⟩
      rw [optionMapList, hfa, option_bind_some, (ih _).mpr hrest, option_bind_some]
      rfl

theorem optionMapList_isSome_iff {α β : Type} (f : α → Option β) (l : List α) :
    (optionMapList f l).isSome ↔ ∀ a ∈ l, (f a).isSome := by
  induction l with
  | nil => simp [optionMapList]
  | cons a l ih =>
    constructor
    · intro h
      obtain ⟨ys, hys⟩ := Option.isSome_iff_exists.mp h
      intro x hx
      rw [List.mem_cons] at hx
      rcases (optionMapList_some_iff f _ ys).mp hys with _ | ⟨hfa, hrest⟩
      rcases hx with rfl | hx
      · simp [hfa]
      · exact ih.mp (Option.isSome_iff_exists.mpr
          ⟨_, (optionMapList_some_iff f _ _).mpr hrest⟩) _ hx
    · intro h
      obtain ⟨b, hb⟩ := Option.isSome_iff_exists.mp (h a (by simp))
      obtain ⟨ys, hys⟩ := Option.isSome_iff_exists.mp
        (ih.mpr fun x hx => h x (List.mem_cons_of_mem _ hx))
      rw [optionMapList, hb, option_bind_some, hys, option_bind_some]
      rfl

theorem exceptMapList_ok_iff {α β : Type} (f : α → Except PalErr β) (l : List α)
    (ys : List β) :
    exceptMapList f l = .ok ys ↔ List.Forall₂ (fun a b => f a = .ok b) l ys := by
  induction l generalizing ys with
  | nil =>
    simp only [exceptMapList, List.forall₂_nil_left_iff]
    exact ⟨fun h => by cases h; rfl, fun h => by rw [h]⟩
  | cons a l ih =>
    constructor
    · intro h
      cases hfa : f a with
      | error e => rw [exceptMapList, hfa, except_bind_error] at h; exact absurd h (by simp)
      | ok b =>
        rw [exceptMapList, hfa, except_bind_ok] at h
        cases hrec : exceptMapList f l with
        | error e => rw [hrec, except_bind_error] at h; exact absurd h (by simp)
        | ok bs =>
          rw [hrec, except_bind_ok] at h
          have hys : b :: bs = ys := by
            have := h
            simp only [Pure.pure, Except.pure, Except.ok.injEq] at this
            exact this
          exact hys ▸ List.Forall₂.cons hfa ((ih bs).mp hrec)
    · intro h
      rcases h with _ | ⟨hfa, hrest⟩
      rw [exceptMapList, hfa, except_bind_ok, (ih _).mpr hrest, except_bind_ok]
      rfl

theorem forall₂_map_eq {α β γ : Type} {g : β → γ} {k : α → γ} {R : α → β → Prop}
    (hR : ∀ a b, R a b → g b = k a) :
    ∀ {l : List α} {ys : List β}, List.Forall₂ R l ys → ys.map g = l.map k := by
  intro l ys h
  induction h with
  | nil => rfl
  | cons hab _ ih => simp [ih, hR _ _ hab]

theorem forall₂_mem_right {α β : Type} {R : α → β → Prop} :
    ∀ {l : List α} {ys : List β}, List.Forall₂ R l ys → ∀ b ∈ ys, ∃ a ∈ l, R a b := by
  intro l ys h
  induction h with
  | nil => simp
  | cons hab _ ih =>
    intro b hb
    rw [List.mem_cons] at hb
    rcases hb with rfl | hb
    · exact ⟨_, by simp, hab⟩
    · obtain ⟨a, ha, hR⟩ := ih _ hb
      exact ⟨a, List.mem_cons_of_mem _ ha, hR⟩

/-! ## Hex parsing lemmas -/

theorem hexDigitVal_le (c : Char) (v : ℕ) (h : hexDigitVal c = some v) : v ≤ 15 := by
  unfold hexDigitVal at h
  split_ifs at h with h1 h2 h3
  · have hv := Option.some.inj h; omega
  · have hv := Option.some.inj h; omega
  · have hv := Option.some.inj h; omega

theorem pyIntHex_le_255 (l : List Char) (v : ℕ) (hlen : l.length ≤ 2)
    (h : pyIntHex l = some v) : v ≤ 255 := by
  match l with
  | [] => simp [pyIntHex] at h
  | [a] =>
    cases hva : hexDigitVal a with
    | none => simp [pyIntHex, optionMapList, hva] at h
    | some va =>
      have hb := hexDigitVal_le a va hva
      simp [pyIntHex, optionMapList, hva] at h
      omega
  | [a, b] =>
    cases hva : hexDigitVal a with
    | none => simp [pyIntHex, optionMapList, hva] at h
    | some va =>
      cases hvb : hexDigitVal b with
      | none => simp [pyIntHex, optionMapList, hva, hvb] at h
      | some vb =>
        have ha := hexDigitVal_le a va hva
        have hb := hexDigitVal_le b vb hvb
        simp [pyIntHex, optionMapList, hva, hvb] at h
        omega
  | a :: b :: c :: t => simp at hlen

theorem pyIntHex_isSome_iff (l : List Char) :
    (pyIntHex l).isSome ↔ l ≠ [] ∧ ∀ c ∈ l, (hexDigitVal c).isSome := by
  rcases l with _ | ⟨a, t⟩
  · simp [pyIntHex]
  · rw [pyIntHex]
    simp only [List.isEmpty_cons, Bool.false_eq_true, ↓reduceIte, Option.isSome_map']
    rw [optionMapList_isSome_iff]
    simp

/-- The desugared bind chain of hex_to_rgb. -/
theorem hex_to_rgb_eq (s : String) :
    hex_to_rgb s = (pyIntHex ((expand3 (cleanHex s)).take 2)) >>= fun r =>
      (pyIntHex (((expand3 (cleanHex s)).drop 2).take 2)) >>= fun g =>
      (pyIntHex (((expand3 (cleanHex s)).drop 4).take 2)) >>= fun b => some (r, g, b) := rfl

theorem expand3_of_length_ne_three (l : List Char) (h : l.length ≠ 3) : expand3 l = l := by
  rcases l with _ | ⟨a, _ | ⟨b, _ | ⟨c, _ | ⟨d, t⟩⟩⟩⟩
  · rfl
  · rfl
  · rfl
  · simp at h
  · rfl

/-- Lengths 0, 1, 2 and 4 of the cleaned string always fail: one of the
three slices is empty. -/
theorem hex_to_rgb_bad_length (s : String)
    (h : (cleanHex s).length ∈ ([0, 1, 2, 4] : List ℕ)) : hex_to_rgb s = none := by
  rw [hex_to_rgb_eq]
  rcases hcl : cleanHex s with _ | ⟨a, _ | ⟨b, _ | ⟨c, _ | ⟨d, _ | ⟨e, t⟩⟩⟩⟩⟩
  · rfl
  · show ((pyIntHex [a]) >>= fun r => (pyIntHex []) >>= fun g =>
      (pyIntHex []) >>= fun b => some (r, g, b)) = none
    cases hr : pyIntHex [a] with
    | none => rfl
    | some r => rfl
  · show ((pyIntHex [a, b]) >>= fun r => (pyIntHex []) >>= fun g =>
      (pyIntHex []) >>= fun b => some (r, g, b)) = none
    cases hr : pyIntHex [a, b] with
    | none => rfl
    | some r => rfl
  · rw [hcl] at h; simp at h
  · show ((pyIntHex [a, b]) >>= fun r => (pyIntHex [c, d]) >>= fun g =>
      (pyIntHex []) >>= fun b => some (r, g, b)) = none
    cases hr : pyIntHex [a, b] with
    | none => rfl
    | some r =>
      cases hg : pyIntHex [c, d] with
      | none => rfl
      | some g => rfl
  · rw [hcl] at h
    simp at h

/-- Cleaned lengths 3 and at least 5 parse whenever every character is a
hex digit. -/
theorem hex_to_rgb_good_length (s : String)
    (hhex : ∀ c ∈ cleanHex s, (hexDigitVal c).isSome)
    (hlen : (cleanHex s).length = 3 ∨ 5 ≤ (cleanHex s).length) :
    (hex_to_rgb s).isSome := by
  rw [hex_to_rgb_eq]
  rcases hcl : cleanHex s with _ | ⟨a, _ | ⟨b, _ | ⟨c, _ | ⟨d, _ | ⟨e, t⟩⟩⟩⟩⟩ <;>
      rw [hcl] at hlen hhex <;>
      simp only [List.length_nil, List.length_cons, List.mem_cons] at hlen hhex
  · omega
  · omega
  · omega
  · -- three hex digits: duplicated nibbles
    show ((pyIntHex [a, a]) >>= fun r => (pyIntHex [b, b]) >>= fun g =>
      (pyIntHex [c, c]) >>= fun v => some (r, g, v)).isSome = true
    obtain ⟨va, hva⟩ := Option.isSome_iff_exists.mp (hhex a (Or.inl rfl))
    obtain ⟨vb, hvb⟩ := Option.isSome_iff_exists.mp (hhex b (Or.inr (Or.inl rfl)))
    obtain ⟨vc, hvc⟩ := Option.isSome_iff_exists.mp (hhex c (Or.inr (Or.inr (Or.inl rfl))))
    have h1 : pyIntHex [a, a] = some (16 * va + va) := by
      simp [pyIntHex, optionMapList, hva]
    have h2 : pyIntHex [b, b] = some (16 * vb + vb) := by
      simp [pyIntHex, optionMapList, hvb]
    have h3 : pyIntHex [c, c] = some (16 * vc + vc) := by
      simp [pyIntHex, optionMapList, hvc]
    rw [h1, option_bind_some, h2, option_bind_some, h3, option_bind_some]
    rfl
  · omega
  · -- length at least five
    show ((pyIntHex [a, b]) >>= fun r => (pyIntHex [c, d]) >>= fun g =>
      (pyIntHex ((e :: t).take 2)) >>= fun v => some (r, g, v)).isSome = true
    obtain ⟨va, hva⟩ := Option.isSome_iff_exists.mp (hhex a (Or.inl rfl))
    obtain ⟨vb, hvb⟩ := Option.isSome_iff_exists.mp (hhex b (Or.inr (Or.inl rfl)))
    obtain ⟨vc, hvc⟩ := Option.isSome_iff_exists.mp (hhex c (Or.inr (Or.inr (Or.inl rfl))))
    obtain ⟨vd, hvd⟩ := Option.isSome_iff_exists.mp
      (hhex d (Or.inr (Or.inr (Or.inr (Or.inl rfl)))))
    have h1 : pyIntHex [a, b] = some (16 * va + vb) := by
      simp [pyIntHex, optionMapList, hva, hvb]
    have h2 : pyIntHex [c, d] = some (16 * vc + vd) := by
      simp [pyIntHex, optionMapList, hvc, hvd]
    have h3 : (pyIntHex ((e :: t).take 2)).isSome := by
      rw [pyIntHex_isSome_iff]
      refine ⟨by simp, ?_⟩
      intro x hx
      have hsub := List.take_subset 2 (e :: t) hx
      rw [List.mem_cons] at hsub
      rcases hsub with rfl | hsub
      · exact hhex x (Or.inr (Or.inr (Or.inr (Or.inr (Or.inl rfl)))))
      · exact hhex x (Or.inr (Or.inr (Or.inr (Or.inr (Or.inr hsub)))))
    obtain ⟨v, hv⟩ := Option.isSome_iff_exists.mp h3
    rw [h1, option_bind_some, h2, option_bind_some, hv, option_bind_some]
    rfl

/-! ## Claim C2 -/

/-- C2 counterexample: hex_to_rgb silently parses cleaned strings of
length 5 and of length 7 built from hex digits, contradicting the claim
that exactly-3-or-6 is enforced. -/
theorem hex_to_rgb_silent_parse :
    hex_to_rgb "12345" = some (18, 52, 5) ∧ hex_to_rgb "#1234567" = some (18, 52, 86) := by
  decide

/-- C2 amended: hex_to_rgb performs no length validation.  Cleaned lengths
0, 1, 2 and 4 always fail (an examined slice is empty); on all-hex-digit
input every other length parses: length 3 by nibble duplication, length 6
normally, and length 5 or more silently, using only the first six
characters. -/
theorem hex_to_rgb_length_characterization :
    (∀ s : String, (cleanHex s).length ∈ ([0, 1, 2, 4] : List ℕ) → hex_to_rgb s = none) ∧
    (∀ s : String, (∀ c ∈ cleanHex s, (hexDigitVal c).isSome) →
      ((hex_to_rgb s).isSome ↔ (cleanHex s).length ∉ ([0, 1, 2, 4] : List ℕ))) := by
  refine ⟨fun s h => hex_to_rgb_bad_length s h, fun s hhex => ?_⟩
  constructor
  · intro hs hmem
    rw [hex_to_rgb_bad_length s hmem] at hs
    simp at hs
  · intro hmem
    refine hex_to_rgb_good_length s hhex ?_
    simp only [List.mem_cons, List.not_mem_nil, or_false] at hmem
    push_neg at hmem
    obtain ⟨h0, h1, h2, h4⟩ := hmem
    rcases Nat.lt_or_ge (cleanHex s).length 5 with h5 | h5
    · interval_cases h : (cleanHex s).length <;> omega
    · omega

/-- C2 witness: the characterization applied at the concrete cleaned
length-4 input "#1234". -/
theorem hex_to_rgb_length_characterization_witness : hex_to_rgb "#1234" = none :=
  hex_to_rgb_length_characterization.1 "#1234" (by decide)

/-! ## Claim C3 -/

theorem pyRange_nonpos (n : ℤ) (h : n ≤ 0) : pyRange n = [] := by
  rw [pyRange]
  have : n.toNat = 0 := by omega
  rw [this]
  rfl

theorem pyRange_length (n : ℤ) : (pyRange n).length = n.toNat := by
  simp [pyRange]

theorem exceptMapList_ok_of_forall {α β : Type} (f : α → Except PalErr β) (g : α → β)
    (l : List α) (h : ∀ a ∈ l, f a = .ok (g a)) : exceptMapList f l = .ok (l.map g) := by
  rw [exceptMapList_ok_iff]
  induction l with
  | nil => exact List.Forall₂.nil
  | cons a l ih =>
    exact List.Forall₂.cons (h a (by simp)) (ih fun x hx => h x (by simp [hx]))

theorem optionMapList_some_of_forall {α β : Type} (f : α → Option β) (g : α → β)
    (l : List α) (h : ∀ a ∈ l, f a = some (g a)) : optionMapList f l = some (l.map g) := by
  rw [optionMapList_some_iff]
  induction l with
  | nil => exact List.Forall₂.nil
  | cons a l ih =>
    exact List.Forall₂.cons (h a (by simp)) (ih fun x hx => h x (by simp [hx]))

/-- C3 counterexample: a step count of 1 raises the unguarded
ZeroDivisionError rather than an InvalidArgument validation error, and a
step count of 0 silently yields the empty list. -/
theorem scale_count_guard_counterexample :
    generate_tints_shades "#3b82f6" 1 = .error .zeroDiv ∧
    generate_tints_shades "#3b82f6" 0 = .ok [] ∧
    generate_gradient_stops "#000000" "#ffffff" 1 = .error .zeroDiv ∧
    generate_gradient_stops "#000000" "#ffffff" 0 = .ok [] := by
  with_unfolding_all decide

/-- C3 amended: neither function validates its count; for a valid color,
count 1 raises ZeroDivisionError, count at most 0 returns the empty list,
and count at least 2 returns exactly that many entries. -/
theorem scale_count_behavior (c1 c2 : String) (t1 t2 : ℕ × ℕ × ℕ)
    (h1 : hex_to_rgb c1 = some t1) (h2 : hex_to_rgb c2 = some t2) (n : ℤ) :
    generate_tints_shades c1 1 = .error .zeroDiv ∧
    (n ≤ 0 → generate_tints_shades c1 n = .ok []) ∧
    (2 ≤ n → ∃ xs, generate_tints_shades c1 n = .ok xs ∧ xs.length = n.toNat) ∧
    generate_gradient_stops c1 c2 1 = .error .zeroDiv ∧
    (n ≤ 0 → generate_gradient_stops c1 c2 n = .ok []) ∧
    (2 ≤ n → ∃ xs, generate_gradient_stops c1 c2 n = .ok xs ∧ xs.length = n.toNat) := by
  refine ⟨?_, ?_, ?_, ?_, ?_, ?_⟩
  · rw [generate_tints_shades, h1]
    show exceptMapList _ (pyRange 1) = _
    have : pyRange 1 = [0] := rfl
    rw [this, exceptMapList]
    simp [except_bind_error]
  · intro hn
    rw [generate_tints_shades, h1]
    show exceptMapList _ (pyRange n) = _
    rw [pyRange_nonpos n hn]
    rfl
  · intro hn
    rw [generate_tints_shades, h1]
    show ∃ xs, exceptMapList _ (pyRange n) = .ok xs ∧ _
    have hne : n - 1 ≠ 0 := by omega
    refine ⟨_, exceptMapList_ok_of_forall _
      (fun (i : ℤ) => hls_hex ((rgb_to_hls ((t1.1 : ℚ) / 255) ((t1.2.1 : ℚ) / 255)
        ((t1.2.2 : ℚ) / 255)).1 * 360)
        (0.95 - (i : ℚ) * (0.90 / ((n : ℚ) - 1)))
        (rgb_to_hls ((t1.1 : ℚ) / 255) ((t1.2.1 : ℚ) / 255) ((t1.2.2 : ℚ) / 255)).2.2)
      _ (fun (i : ℤ) _ => by rw [if_neg hne]), ?_⟩
    rw [List.length_map, pyRange_length]
  · show exceptMapList _ (pyRange 1) = _
    have : pyRange 1 = [0] := rfl
    rw [this, exceptMapList]
    simp [except_bind_error]
  · intro hn
    show exceptMapList _ (pyRange n) = _
    rw [pyRange_nonpos n hn]
    rfl
  · intro hn
    have hne : n - 1 ≠ 0 := by omega
    refine ⟨_, exceptMapList_ok_of_forall _
      (fun (i : ℤ) => rgb_to_hex
        (pyInt ((t1.1 : ℚ) + ((t2.1 : ℚ) - (t1.1 : ℚ)) * (max 0 (min 1 ((i : ℚ) / ((n : ℚ) - 1))))))
        (pyInt ((t1.2.1 : ℚ) + ((t2.2.1 : ℚ) - (t1.2.1 : ℚ)) * (max 0 (min 1 ((i : ℚ) / ((n : ℚ) - 1))))))
        (pyInt ((t1.2.2 : ℚ) + ((t2.2.2 : ℚ) - (t1.2.2 : ℚ)) * (max 0 (min 1 ((i : ℚ) / ((n : ℚ) - 1)))))))
      _ (fun (i : ℤ) _ => ?_), ?_⟩
    · rw [if_neg hne]
      rw [blend_colors, h1, option_bind_some, h2, option_bind_some]
      rfl
    · rw [List.length_map, pyRange_length]

/-- C3 witness: the behavior theorem applied at two concrete colors with
count 1 and count 0. -/
theorem scale_count_behavior_witness :
    generate_tints_shades "#ff0000" 1 = .error .zeroDiv ∧
    generate_tints_shades "#ff0000" 0 = .ok [] ∧
    generate_gradient_stops "#ff0000" "#0000ff" 1 = .error .zeroDiv := by
  have h := scale_count_behavior "#ff0000" "#0000ff" (255, 0, 0) (0, 0, 255)
    (by decide) (by decide) 0
  exact ⟨h.1, h.2.1 le_rfl, h.2.2.2.1⟩

/-! ## Channel bounds and formatting lemmas -/

theorem hex_to_rgb_le_255 (s : String) (r g b : ℕ) (h : hex_to_rgb s = some (r, g, b)) :
    r ≤ 255 ∧ g ≤ 255 ∧ b ≤ 255 := by
  rw [hex_to_rgb_eq] at h
  cases hr : pyIntHex ((expand3 (cleanHex s)).take 2) with
  | none => rw [hr, option_bind_none] at h; exact absurd h (by simp)
  | some r' =>
    rw [hr, option_bind_some] at h
    cases hg : pyIntHex (((expand3 (cleanHex s)).drop 2).take 2) with
    | none => rw [hg, option_bind_none] at h; exact absurd h (by simp)
    | some g' =>
      rw [hg, option_bind_some] at h
      cases hb : pyIntHex (((expand3 (cleanHex s)).drop 4).take 2) with
      | none => rw [hb, option_bind_none] at h; exact absurd h (by simp)
      | some b' =>
        rw [hb, option_bind_some] at h
        have hrr := Option.some.inj h
        obtain ⟨h1, h2, h3⟩ : r' = r ∧ g' = g ∧ b' = b := by
          have := Prod.mk.injEq .. ▸ hrr
          exact ⟨congrArg Prod.fst hrr, congrArg (fun x => x.2.1) hrr,
            congrArg (fun x => x.2.2) hrr⟩
        refine ⟨h1 ▸ ?_, h2 ▸ ?_, h3 ▸ ?_⟩
        · exact pyIntHex_le_255 _ _ (by simp) hr
        · exact pyIntHex_le_255 _ _ (by simp) hg
        · exact pyIntHex_le_255 _ _ (by simp) hb

theorem pyInt_natCast (n : ℕ) : pyInt (n : ℚ) = (n : ℤ) := by
  rw [pyInt, if_neg (not_lt.mpr (by positivity))]
  exact Int.floor_natCast n

theorem pyInt_eq_floor_of_nonneg (q : ℚ) (h : 0 ≤ q) : pyInt q = ⌊q⌋ := by
  rw [pyInt, if_neg (not_lt.mpr h)]

/-! ## Claim C7 -/

/-- The desugared bind chain of blend_colors. -/
theorem blend_colors_eq (s1 s2 : String) (t : ℚ) :
    blend_colors s1 s2 t = (hex_to_rgb s1) >>= fun c1 => (hex_to_rgb s2) >>= fun c2 =>
      some (rgb_to_hex
        (pyInt ((c1.1 : ℚ) + ((c2.1 : ℚ) - (c1.1 : ℚ)) * (max 0 (min 1 t))))
        (pyInt ((c1.2.1 : ℚ) + ((c2.2.1 : ℚ) - (c1.2.1 : ℚ)) * (max 0 (min 1 t))))
        (pyInt ((c1.2.2 : ℚ) + ((c2.2.2 : ℚ) - (c1.2.2 : ℚ)) * (max 0 (min 1 t))))) := rfl

/-- C7: blend with ratio 0 yields exactly the first color's normalized hex
and ratio 1 the second's; in general the ratio is clamped to [0,1] and each
channel is the floor of the linear interpolation. -/
theorem blend_colors_spec (s1 s2 : String) (c1 c2 : ℕ × ℕ × ℕ)
    (hp1 : hex_to_rgb s1 = some c1) (hp2 : hex_to_rgb s2 = some c2) (t : ℚ) :
    blend_colors s1 s2 0 = some (rgb_to_hex c1.1 c1.2.1 c1.2.2) ∧
    blend_colors s1 s2 1 = some (rgb_to_hex c2.1 c2.2.1 c2.2.2) ∧
    blend_colors s1 s2 t = some (rgb_to_hex
      ⌊(c1.1 : ℚ) + ((c2.1 : ℚ) - (c1.1 : ℚ)) * (max 0 (min 1 t))⌋
      ⌊(c1.2.1 : ℚ) + ((c2.2.1 : ℚ) - (c1.2.1 : ℚ)) * (max 0 (min 1 t))⌋
      ⌊(c1.2.2 : ℚ) + ((c2.2.2 : ℚ) - (c1.2.2 : ℚ)) * (max 0 (min 1 t))⌋) := by
  have hlerp : ∀ (a b : ℕ) (u : ℚ), 0 ≤ u → u ≤ 1 →
      0 ≤ (a : ℚ) + ((b : ℚ) - (a : ℚ)) * u := by
    intro a b u hu0 hu1
    have : (a : ℚ) + ((b : ℚ) - (a : ℚ)) * u = (a : ℚ) * (1 - u) + (b : ℚ) * u := by ring
    rw [this]
    have ha : (0 : ℚ) ≤ (a : ℚ) := by positivity
    have hb : (0 : ℚ) ≤ (b : ℚ) := by positivity
    nlinarith
  have hcl0 : (0 : ℚ) ≤ max 0 (min 1 t) := le_max_left 0 _
  have hcl1 : max 0 (min 1 t) ≤ 1 := by
    rcases le_total (min 1 t) 0 with h | h
    · rw [max_eq_left h]; norm_num
    · rw [max_eq_right h]; exact min_le_left 1 t
  refine ⟨?_, ?_, ?_⟩
  · rw [blend_colors_eq, hp1, option_bind_some, hp2, option_bind_some]
    have hz : max 0 (min 1 (0 : ℚ)) = 0 := by norm_num
    rw [hz]
    simp only [mul_zero, add_zero, pyInt_natCast]
  · rw [blend_colors_eq, hp1, option_bind_some, hp2, option_bind_some]
    have ho : max 0 (min 1 (1 : ℚ)) = 1 := by norm_num
    rw [ho]
    simp only [mul_one]
    have harith : ∀ a b : ℕ, (a : ℚ) + ((b : ℚ) - (a : ℚ)) = (b : ℚ) := by intro a b; ring
    rw [harith, harith, harith, pyInt_natCast, pyInt_natCast, pyInt_natCast]
  · rw [blend_colors_eq, hp1, option_bind_some, hp2, option_bind_some]
    rw [pyInt_eq_floor_of_nonneg _ (hlerp _ _ _ hcl0 hcl1),
      pyInt_eq_floor_of_nonneg _ (hlerp _ _ _ hcl0 hcl1),
      pyInt_eq_floor_of_nonneg _ (hlerp _ _ _ hcl0 hcl1)]

/-- C7 witness: blend at the concrete pair red and blue, ratios 0 and 1. -/
theorem blend_colors_spec_witness :
    blend_colors "#ff0000" "#0000ff" 0 = some "#ff0000" ∧
    blend_colors "#ff0000" "#0000ff" 1 = some "#0000ff" := by
  have h := blend_colors_spec "#ff0000" "#0000ff" (255, 0, 0) (0, 0, 255)
    (by decide) (by decide) 0.5
  refine ⟨?_, ?_⟩
  · rw [h.1]; decide
  · rw [h.2.1]; decide

/-! ## Hex digit character lemmas -/

theorem hexChar_fin_val : ∀ n : Fin 16, hexDigitVal (hexChar (n : ℕ)) = some (n : ℕ) := by
  decide

theorem hexChar_fin_ne_hash : ∀ n : Fin 16, ((hexChar (n : ℕ)) == '#') = false := by decide

theorem hexChar_fin_lowHex : ∀ n : Fin 16, hexChar (n : ℕ) ∈ lowHexDigits := by decide

theorem lowHex_val : ∀ c ∈ lowHexDigits,
    ∃ v : Fin 16, hexDigitVal c = some (v : ℕ) ∧ hexChar (v : ℕ) = c := by decide

theorem lowHex_ne_hash : ∀ c ∈ lowHexDigits, (c == '#') = false := by decide

theorem pyIntHex_byteHex (n : ℕ) (h : n ≤ 255) : pyIntHex (byteHex n) = some n := by
  have hd : n / 16 < 16 := by omega
  have hm : n % 16 < 16 := by omega
  have h1 : hexDigitVal (hexChar (n / 16)) = some (n / 16) := by
    simpa using hexChar_fin_val ⟨n / 16, hd⟩
  have h2 : hexDigitVal (hexChar (n % 16)) = some (n % 16) := by
    simpa using hexChar_fin_val ⟨n % 16, hm⟩
  simp [byteHex, pyIntHex, optionMapList, h1, h2]
  omega

theorem cleanHex_mk_hash (x : Char) (l : List Char) (hx : (x == '#') = false) :
    cleanHex (String.mk ('#' :: x :: l)) = x :: l := by
  show List.dropWhile (fun c => c == '#') ('#' :: x :: l) = x :: l
  rw [List.dropWhile_cons, if_pos (by decide), List.dropWhile_cons, if_neg (by simp [hx])]

theorem clamp255_of_le (n : ℕ) (h : n ≤ 255) :
    (max 0 (min 255 (n : ℤ))).toNat = n := by
  rw [min_eq_right (by exact_mod_cast h), max_eq_right (by positivity)]
  simp

theorem byteHex_digits (v w : Fin 16) :
    byteHex (16 * (v : ℕ) + (w : ℕ)) = [hexChar (v : ℕ), hexChar (w : ℕ)] := by
  have hv := v.isLt
  have hw := w.isLt
  have h1 : (16 * (v : ℕ) + (w : ℕ)) / 16 = (v : ℕ) := by omega
  have h2 : (16 * (v : ℕ) + (w : ℕ)) % 16 = (w : ℕ) := by omega
  rw [byteHex, h1, h2]

/-- Parsing the output of rgb_to_hex recovers the clamped channels. -/
theorem hex_to_rgb_rgb_to_hex (r g b : ℤ) :
    hex_to_rgb (rgb_to_hex r g b) = some ((max 0 (min 255 r)).toNat,
      (max 0 (min 255 g)).toNat, (max 0 (min 255 b)).toNat) := by
  set a := (max 0 (min 255 r)).toNat with ha
  set c := (max 0 (min 255 g)).toNat with hc
  set d := (max 0 (min 255 b)).toNat with hd
  have hA : a ≤ 255 := Int.toNat_le.mpr (max_le (by norm_num) (min_le_left 255 r))
  have hC : c ≤ 255 := Int.toNat_le.mpr (max_le (by norm_num) (min_le_left 255 g))
  have hD : d ≤ 255 := Int.toNat_le.mpr (max_le (by norm_num) (min_le_left 255 b))
  have hA16 : a / 16 < 16 := by omega
  rw [hex_to_rgb_eq]
  have hshape : rgb_to_hex r g b = String.mk ('#' :: (hexChar (a / 16) :: hexChar (a % 16)
      :: hexChar (c / 16) :: hexChar (c % 16) :: hexChar (d / 16) :: hexChar (d % 16) :: [])) := by
    rw [rgb_to_hex, ← ha, ← hc, ← hd, byteHex, byteHex, byteHex]
    rfl
  rw [hshape]
  have hclean : cleanHex (String.mk ('#' :: (hexChar (a / 16) :: hexChar (a % 16)
      :: hexChar (c / 16) :: hexChar (c % 16) :: hexChar (d / 16) :: hexChar (d % 16) :: [])))
      = hexChar (a / 16) :: hexChar (a % 16) :: hexChar (c / 16) :: hexChar (c % 16)
        :: hexChar (d / 16) :: hexChar (d % 16) :: [] :=
    cleanHex_mk_hash _ _ (by simpa using hexChar_fin_ne_hash ⟨a / 16, hA16⟩)
  rw [hclean]
  show (pyIntHex [hexChar (a / 16), hexChar (a % 16)] >>= fun r =>
    pyIntHex [hexChar (c / 16), hexChar (c % 16)] >>= fun g =>
    pyIntHex [hexChar (d / 16), hexChar (d % 16)] >>= fun v => some (r, g, v)) = some (a, c, d)
  have hpa : pyIntHex [hexChar (a / 16), hexChar (a % 16)] = some a := by
    have := pyIntHex_byteHex a hA
    rwa [byteHex] at this
  have hpc : pyIntHex [hexChar (c / 16), hexChar (c % 16)] = some c := by
    have := pyIntHex_byteHex c hC
    rwa [byteHex] at this
  have hpd : pyIntHex [hexChar (d / 16), hexChar (d % 16)] = some d := by
    have := pyIntHex_byteHex d hD
    rwa [byteHex] at this
  rw [hpa, option_bind_some, hpc, option_bind_some, hpd, option_bind_some]

/-! ## Claim C8 -/

/-- C8 counterexample: the uppercase string #3B82F6 is accepted by the
parser, but the round trip yields the lowercase form, not the input. -/
theorem roundtrip_case_counterexample :
    hex_to_rgb "#3B82F6" = some (59, 130, 246) ∧
    rgb_to_hex 59 130 246 = "#3b82f6" ∧ ("#3b82f6" : String) ≠ "#3B82F6" := by decide

/-- C8 amended: the parse-format round trip is exact on hash-prefixed
strings of lowercase hex digits: six digits reproduce the input, three
digits produce the nibble-duplicated six-digit form. -/
theorem parse_tohex_roundtrip (l : List Char) (hhex : ∀ c ∈ l, c ∈ lowHexDigits) :
    (l.length = 6 → ∃ r g b : ℕ, hex_to_rgb (String.mk ('#' :: l)) = some (r, g, b) ∧
      rgb_to_hex (r : ℤ) (g : ℤ) (b : ℤ) = String.mk ('#' :: l)) ∧
    (l.length = 3 → ∃ r g b : ℕ, hex_to_rgb (String.mk ('#' :: l)) = some (r, g, b) ∧
      rgb_to_hex (r : ℤ) (g : ℤ) (b : ℤ) = String.mk ('#' :: expand3 l)) := by
  constructor
  · intro hlen
    rcases l with _ | ⟨x1, _ | ⟨x2, _ | ⟨x3, _ | ⟨x4, _ | ⟨x5, _ | ⟨x6, _ | ⟨x7, t⟩⟩⟩⟩⟩⟩⟩ <;>
      simp only [List.length_nil, List.length_cons] at hlen <;> try omega
    obtain ⟨v1, hv1, hc1⟩ := lowHex_val x1 (hhex x1 (by simp))
    obtain ⟨v2, hv2, hc2⟩ := lowHex_val x2 (hhex x2 (by simp))
    obtain ⟨v3, hv3, hc3⟩ := lowHex_val x3 (hhex x3 (by simp))
    obtain ⟨v4, hv4, hc4⟩ := lowHex_val x4 (hhex x4 (by simp))
    obtain ⟨v5, hv5, hc5⟩ := lowHex_val x5 (hhex x5 (by simp))
    obtain ⟨v6, hv6, hc6⟩ := lowHex_val x6 (hhex x6 (by simp))
    have hb1 := v1.isLt
    have hb2 := v2.isLt
    have hb3 := v3.isLt
    have hb4 := v4.isLt
    have hb5 := v5.isLt
    have hb6 := v6.isLt
    refine ⟨16 * v1 + v2, 16 * v3 + v4, 16 * v5 + v6, ?_, ?_⟩
    · rw [hex_to_rgb_eq,
        cleanHex_mk_hash x1 _ (lowHex_ne_hash x1 (hhex x1 (by simp)))]
      show (pyIntHex [x1, x2] >>= fun r => pyIntHex [x3, x4] >>= fun g =>
        pyIntHex [x5, x6] >>= fun v => some (r, g, v)) = _
      have p1 : pyIntHex [x1, x2] = some (16 * (v1 : ℕ) + v2) := by
        simp [pyIntHex, optionMapList, hv1, hv2]
      have p2 : pyIntHex [x3, x4] = some (16 * (v3 : ℕ) + v4) := by
        simp [pyIntHex, optionMapList, hv3, hv4]
      have p3 : pyIntHex [x5, x6] = some (16 * (v5 : ℕ) + v6) := by
        simp [pyIntHex, optionMapList, hv5, hv6]
      rw [p1, option_bind_some, p2, option_bind_some, p3, option_bind_some]
    · rw [rgb_to_hex, clamp255_of_le _ (by omega), clamp255_of_le _ (by omega),
        clamp255_of_le _ (by omega), byteHex_digits v1 v2, byteHex_digits v3 v4,
        byteHex_digits v5 v6, hc1, hc2, hc3, hc4, hc5, hc6]
      rfl
  · intro hlen
    rcases l with _ | ⟨x1, _ | ⟨x2, _ | ⟨x3, _ | ⟨x4, t⟩⟩⟩⟩ <;>
      simp only [List.length_nil, List.length_cons] at hlen <;> try omega
    obtain ⟨v1, hv1, hc1⟩ := lowHex_val x1 (hhex x1 (by simp))
    obtain ⟨v2, hv2, hc2⟩ := lowHex_val x2 (hhex x2 (by simp))
    obtain ⟨v3, hv3, hc3⟩ := lowHex_val x3 (hhex x3 (by simp))
    have hb1 := v1.isLt
    have hb2 := v2.isLt
    have hb3 := v3.isLt
    refine ⟨16 * v1 + v1, 16 * v2 + v2, 16 * v3 + v3, ?_, ?_⟩
    · rw [hex_to_rgb_eq,
        cleanHex_mk_hash x1 _ (lowHex_ne_hash x1 (hhex x1 (by simp)))]
      show (pyIntHex [x1, x1] >>= fun r => pyIntHex [x2, x2] >>= fun g =>
        pyIntHex [x3, x3] >>= fun v => some (r, g, v)) = _
      have p1 : pyIntHex [x1, x1] = some (16 * (v1 : ℕ) + v1) := by
        simp [pyIntHex, optionMapList, hv1]
      have p2 : pyIntHex [x2, x2] = some (16 * (v2 : ℕ) + v2) := by
        simp [pyIntHex, optionMapList, hv2]
      have p3 : pyIntHex [x3, x3] = some (16 * (v3 : ℕ) + v3) := by
        simp [pyIntHex, optionMapList, hv3]
      rw [p1, option_bind_some, p2, option_bind_some, p3, option_bind_some]
    · rw [rgb_to_hex, clamp255_of_le _ (by omega), clamp255_of_le _ (by omega),
        clamp255_of_le _ (by omega), byteHex_digits v1 v1, byteHex_digits v2 v2,
        byteHex_digits v3 v3, hc1, hc2, hc3]
      rfl

/-- C8 witness: the round trip at the lowercase string #3b82f6. -/
theorem parse_tohex_roundtrip_witness :
    ∃ r g b : ℕ, hex_to_rgb (String.mk ('#' :: ['3', 'b', '8', '2', 'f', '6']))
        = some (r, g, b) ∧
      rgb_to_hex (r : ℤ) (g : ℤ) (b : ℤ) = String.mk ('#' :: ['3', 'b', '8', '2', 'f', '6']) :=
  (parse_tohex_roundtrip ['3', 'b', '8', '2', 'f', '6'] (by decide)).1 rfl

/-! ## Claim C9 -/

theorem list_lookup_eq_none {β : Type} (l : List (String × β)) (k : String)
    (h : k ∉ l.map Prod.fst) : l.lookup k = none := by
  induction l with
  | nil => rfl
  | cons p l ih =>
    rcases p with ⟨k', v⟩
    simp only [List.map_cons, List.mem_cons] at h
    push_neg at h
    have hne : (k == k') = false := beq_eq_false_iff_ne.mpr h.1
    simp [List.lookup, hne, ih h.2]

theorem list_lookup_isSome {β : Type} (l : List (String × β)) (k : String)
    (h : k ∈ l.map Prod.fst) : (l.lookup k).isSome := by
  induction l with
  | nil => simp at h
  | cons p l ih =>
    rcases p with ⟨k', v⟩
    simp only [List.map_cons, List.mem_cons] at h
    by_cases hk : k = k'
    · simp [List.lookup, hk]
    · have hne : (k == k') = false := beq_eq_false_iff_ne.mpr hk
      simp only [List.lookup, hne]
      exact ih (h.resolve_left hk)

/-- C9: generate checks the cleaned length first, then the harmony kind,
and parses the hex digits only afterwards: with a 6-character cleaned base
an unknown harmony wins over non-hex characters, and non-hex characters are
reported only when the harmony kind is valid. -/
theorem generate_validation_order (pid ts base hk nm : String)
    (hlen : (expand3 (cleanHex base)).length = 6) :
    (hk ∉ harmonyKeys → generate pid ts base hk nm = .error .unknownHarmony) ∧
    (hk ∈ harmonyKeys → hex_to_rgb (String.mk ('#' :: expand3 (cleanHex base))) = none →
      generate pid ts base hk nm = .error .invalidColor) := by
  unfold generate
  rw [if_neg (by simp [hlen])]
  constructor
  · intro hnot
    rw [list_lookup_eq_none HARMONY_ANGLES hk hnot]
  · intro hmem hparse
    obtain ⟨angles, hangles⟩ := Option.isSome_iff_exists.mp
      (list_lookup_isSome HARMONY_ANGLES hk hmem)
    simp only [hangles, hparse]

/-- C9 witness: the validation order at the concrete base zzzzzz with the
unknown kind rainbow and with the valid kind triadic. -/
theorem generate_validation_order_witness :
    generate "a" "b" "zzzzzz" "rainbow" "" = .error .unknownHarmony ∧
    generate "a" "b" "zzzzzz" "triadic" "" = .error .invalidColor := by
  have h1 := generate_validation_order "a" "b" "zzzzzz" "rainbow" "" (by decide)
  have h2 := generate_validation_order "a" "b" "zzzzzz" "triadic" "" (by decide)
  exact ⟨h1.1 (by decide), h2.2 (by decide) (by decide)⟩

/-! ## Generate inversion lemmas -/

theorem liftO_some {α : Type} (a : α) : liftO (some a) = Except.ok a := rfl

theorem except_map_ok {α β : Type} (a : α) (f : α → β) :
    (Except.ok a : Except PalErr α).map f = Except.ok (f a) := rfl

theorem except_map_eq_ok {α β : Type} (x : Except PalErr α) (f : α → β) (b : β)
    (h : x.map f = .ok b) : ∃ a, x = .ok a ∧ f a = b := by
  cases x with
  | error e => exact absurd h (by simp [Except.map])
  | ok a =>
    rw [except_map_ok] at h
    exact ⟨a, rfl, Except.ok.inj h⟩

theorem except_bind_eq_ok {α β : Type} (x : Except PalErr α) (f : α → Except PalErr β)
    (b : β) (h : (x >>= f) = .ok b) : ∃ a, x = .ok a ∧ f a = .ok b := by
  cases x with
  | error e => rw [except_bind_error] at h; exact absurd h (by simp)
  | ok a => rw [except_bind_ok] at h; exact ⟨a, rfl, h⟩

theorem hex_hls_hex_isSome (h l s : ℚ) : (hex_to_rgb (hls_hex h l s)).isSome := by
  simp only [hls_hex]
  rw [hex_to_rgb_rgb_to_hex]
  rfl

theorem hex_rotate_isSome (r g b : ℕ) (d : ℚ) :
    (hex_to_rgb (rotate_hue_rgb r g b d)).isSome := by
  simp only [rotate_hue_rgb]
  exact hex_hls_hex_isSome _ _ _

theorem hex_adjust_isSome (r g b : ℕ) (d : ℚ) :
    (hex_to_rgb (adjust_lightness_rgb r g b d)).isSome := by
  simp only [adjust_lightness_rgb]
  exact hex_hls_hex_isSome _ _ _

theorem mkColorSwatch_parsedOf (hx nm rl : String) (h : (hex_to_rgb hx).isSome) :
    mkColorSwatch hx nm rl = some (swatchOf hx nm rl (parsedOf hx)) := by
  obtain ⟨c, hc⟩ := Option.isSome_iff_exists.mp h
  simp [mkColorSwatch, parsedOf, hc]

theorem rotate_hue_of_parse (s : String) (c : ℕ × ℕ × ℕ) (d : ℚ)
    (h : hex_to_rgb s = some c) :
    rotate_hue s d = some (rotate_hue_rgb c.1 c.2.1 c.2.2 d) := by
  rw [rotate_hue, h]; rfl

theorem adjust_lightness_of_parse (s : String) (c : ℕ × ℕ × ℕ) (d : ℚ)
    (h : hex_to_rgb s = some c) :
    adjust_lightness s d = some (adjust_lightness_rgb c.1 c.2.1 c.2.2 d) := by
  rw [adjust_lightness, h]; rfl

theorem except_toOption_ok {α : Type} (x : Except PalErr α) (a : α)
    (h : x.toOption = some a) : x = .ok a := by
  cases x with
  | ok b => simp [Except.toOption] at h; rw [h]
  | error e => simp [Except.toOption] at h

/-- Full inversion of a successful generate call: the stored base color and
the exact swatch list of both branches. -/
theorem generate_ok_inv (pid ts base hk nm : String) (p : Palette)
    (hok : generate pid ts base hk nm = .ok p) :
    ∃ angles c,
      HARMONY_ANGLES.lookup hk = some angles ∧
      hex_to_rgb p.base_color = some c ∧
      p.base_color = String.mk ('#' :: expand3 (cleanHex base)) ∧
      p.colors = (if hk = "monochromatic"
        then monoSwatches c (if nm = "" then "color" else nm)
        else nonmonoSwatches c (if nm = "" then "color" else nm) angles) := by
  unfold generate at hok
  by_cases hL : (expand3 (cleanHex base)).length ≠ 6
  · rw [if_pos hL] at hok; exact absurd hok (by simp)
  rw [if_neg hL] at hok
  cases hlook : HARMONY_ANGLES.lookup hk with
  | none => rw [hlook] at hok; exact absurd hok (by simp)
  | some angles =>
    rw [hlook] at hok
    simp only [] at hok
    cases hparse : hex_to_rgb (String.mk ('#' :: expand3 (cleanHex base))) with
    | none =>
      simp only [hparse] at hok
      exact absurd hok (by simp)
    | some c =>
      simp only [hparse] at hok
      by_cases hm : hk = "monochromatic"
      · rw [if_pos hm] at hok
        obtain ⟨sws, hsw, hfn⟩ := except_map_eq_ok _ _ _ hok
        rw [exceptMapList_ok_iff] at hsw
        have hmap : sws.map id = monoSteps.enum.map (fun q =>
            swatchOf (adjust_lightness_rgb c.1 c.2.1 c.2.2
                (q.2.1 - (rgb_to_hls ((c.1 : ℚ) / 255) ((c.2.1 : ℚ) / 255)
                  ((c.2.2 : ℚ) / 255)).2.1))
              ((if nm = "" then "color" else nm) ++ "-" ++ toString (q.1 + 1)) q.2.2
              (parsedOf (adjust_lightness_rgb c.1 c.2.1 c.2.2
                (q.2.1 - (rgb_to_hls ((c.1 : ℚ) / 255) ((c.2.1 : ℚ) / 255)
                  ((c.2.2 : ℚ) / 255)).2.1)))) := by
          refine forall₂_map_eq (fun q b hqb => ?_) hsw
          rw [adjust_lightness_of_parse _ c _ hparse, liftO_some, except_bind_ok,
            mkColorSwatch_parsedOf _ _ _ (hex_adjust_isSome _ _ _ _), liftO_some] at hqb
          simp only [id_eq]
          exact (Except.ok.inj hqb).symm
        rw [List.map_id] at hmap
        refine ⟨angles, c, rfl, ?_, ?_, ?_⟩
        · rw [← hfn]; exact hparse
        · rw [← hfn]
        · rw [← hfn, if_pos hm]
          show sws = monoSwatches c (if nm = "" then "color" else nm)
          rw [monoSwatches]
          exact hmap
      · rw [if_neg hm] at hok
        obtain ⟨sws, hsw, hfn⟩ := except_map_eq_ok _ _ _ hok
        obtain ⟨swbase, hswb, hrest⟩ := except_bind_eq_ok _ _ _ hsw
        obtain ⟨cl, hcl, hrest⟩ := except_bind_eq_ok _ _ _ hrest
        obtain ⟨sl, hsl, hrest⟩ := except_bind_eq_ok _ _ _ hrest
        obtain ⟨cd, hcd, hrest⟩ := except_bind_eq_ok _ _ _ hrest
        obtain ⟨sd, hsd, hrest⟩ := except_bind_eq_ok _ _ _ hrest
        have hsws : sws = swbase ++ [sl, sd] := by
          have h2 := hrest
          simp only [Pure.pure, Except.pure, Except.ok.injEq] at h2
          exact h2.symm
        rw [adjust_lightness_of_parse _ c _ hparse, liftO_some] at hcl
        replace hcl := Except.ok.inj hcl
        rw [← hcl, mkColorSwatch_parsedOf _ _ _ (hex_adjust_isSome _ _ _ _),
          liftO_some] at hsl
        replace hsl := Except.ok.inj hsl
        rw [adjust_lightness_of_parse _ c _ hparse, liftO_some] at hcd
        replace hcd := Except.ok.inj hcd
        rw [← hcd, mkColorSwatch_parsedOf _ _ _ (hex_adjust_isSome _ _ _ _),
          liftO_some] at hsd
        replace hsd := Except.ok.inj hsd
        rw [exceptMapList_ok_iff] at hswb
        have hmap : swbase.map id = angles.enum.map (fun q =>
            swatchOf (rotate_hue_rgb c.1 c.2.1 c.2.2 q.2)
              ((if nm = "" then "color" else nm) ++ "-" ++ toString (q.1 + 1))
              (ROLES.getD q.1 ("color-" ++ toString (q.1 + 1)))
              (parsedOf (rotate_hue_rgb c.1 c.2.1 c.2.2 q.2))) := by
          refine forall₂_map_eq (fun q b hqb => ?_) hswb
          rw [rotate_hue_of_parse _ c _ hparse, liftO_some, except_bind_ok,
            mkColorSwatch_parsedOf _ _ _ (hex_rotate_isSome _ _ _ _), liftO_some] at hqb
          simp only [id_eq]
          exact (Except.ok.inj hqb).symm
        rw [List.map_id] at hmap
        refine ⟨angles, c, rfl, ?_, ?_, ?_⟩
        · rw [← hfn]; exact hparse
        · rw [← hfn]
        · rw [← hfn, if_neg hm]
          show sws = nonmonoSwatches c (if nm = "" then "color" else nm) angles
          rw [nonmonoSwatches, hsws, hmap, ← hsl, ← hsd]

/-! ## Claim C1 -/

/-- C1: for every successful non-monochromatic generate call the swatch
list is the angle-rotated colors of the base, with roles assigned
positionally from ROLES, followed by exactly the lightened (+0.38,
background) and darkened (-0.38, text) variants, each clamped inside
adjust_lightness_rgb. -/
theorem generate_nonmono_structure (pid ts base hk nm : String) (p : Palette)
    (hmono : hk ≠ "monochromatic") (hok : generate pid ts base hk nm = .ok p) :
    ∃ c, hex_to_rgb p.base_color = some c ∧
      p.colors.length = (harmonyAngles hk).length + 2 ∧
      p.colors.map (fun s => s.hex) =
        ((harmonyAngles hk).map fun a => rotate_hue_rgb c.1 c.2.1 c.2.2 a)
          ++ [adjust_lightness_rgb c.1 c.2.1 c.2.2 0.38,
              adjust_lightness_rgb c.1 c.2.1 c.2.2 (-0.38)] ∧
      p.colors.map (fun s => s.role) =
        ROLES.take (harmonyAngles hk).length ++ ["background", "text"] := by
  obtain ⟨angles, c, hlook, hparse, hbase, hcolors⟩ := generate_ok_inv _ _ _ _ _ _ hok
  rw [if_neg hmono] at hcolors
  have hang : harmonyAngles hk = angles := by rw [harmonyAngles, hlook]; rfl
  have hmem : hk ∈ harmonyKeys := by
    by_contra hn
    rw [harmonyKeys] at hn
    rw [list_lookup_eq_none _ _ hn] at hlook
    exact absurd hlook (by simp)
  refine ⟨c, hparse, ?_, ?_, ?_⟩
  · rw [hcolors, nonmonoSwatches, hang]
    simp [List.length_append, List.length_map, List.enum_length]
  · rw [hcolors, nonmonoSwatches, hang]
    simp only [List.map_append, List.map_map]
    have hcomp : ((fun s : ColorSwatch => s.hex) ∘ fun q : ℕ × ℚ =>
        swatchOf (rotate_hue_rgb c.1 c.2.1 c.2.2 q.2)
          ((if nm = "" then "color" else nm) ++ "-" ++ toString (q.1 + 1))
          (ROLES.getD q.1 ("color-" ++ toString (q.1 + 1)))
          (parsedOf (rotate_hue_rgb c.1 c.2.1 c.2.2 q.2)))
        = (fun a => rotate_hue_rgb c.1 c.2.1 c.2.2 a) ∘ Prod.snd := rfl
    rw [hcomp, ← List.map_map, List.enum_map_snd]
    rfl
  · rw [hcolors, nonmonoSwatches, hang]
    simp only [List.map_append, List.map_map]
    have hroles : ∀ l : List ℚ, l = angles →
        (l.enum.map ((fun s : ColorSwatch => s.role) ∘ fun q : ℕ × ℚ =>
          swatchOf (rotate_hue_rgb c.1 c.2.1 c.2.2 q.2)
            ((if nm = "" then "color" else nm) ++ "-" ++ toString (q.1 + 1))
            (ROLES.getD q.1 ("color-" ++ toString (q.1 + 1)))
            (parsedOf (rotate_hue_rgb c.1 c.2.1 c.2.2 q.2))))
          = ROLES.take l.length := by
      intro l hl
      have hk6 : hk = "complementary" ∨ hk = "triadic" ∨ hk = "analogous" ∨
          hk = "monochromatic" ∨ hk = "split-complementary" ∨ hk = "tetradic" := by
        simpa [harmonyKeys, HARMONY_ANGLES] using hmem
      rcases hk6 with h | h | h | h | h | h
      all_goals (rw [h] at hlook)
      · have : angles = [0, 180] := by
          have h2 : HARMONY_ANGLES.lookup "complementary" = some [0, 180] := by
            with_unfolding_all rfl
          rw [h2] at hlook
          exact (Option.some.inj hlook).symm
        subst hl; rw [this]; rfl
      · have : angles = [0, 120, 240] := by
          have h2 : HARMONY_ANGLES.lookup "triadic" = some [0, 120, 240] := by
            with_unfolding_all rfl
          rw [h2] at hlook
          exact (Option.some.inj hlook).symm
        subst hl; rw [this]; rfl
      · have : angles = [0, 30, 60] := by
          have h2 : HARMONY_ANGLES.lookup "analogous" = some [0, 30, 60] := by
            with_unfolding_all rfl
          rw [h2] at hlook
          exact (Option.some.inj hlook).symm
        subst hl; rw [this]; rfl
      · exact absurd h hmono
      · have : angles = [0, 150, 210] := by
          have h2 : HARMONY_ANGLES.lookup "split-complementary" = some [0, 150, 210] := by
            with_unfolding_all rfl
          rw [h2] at hlook
          exact (Option.some.inj hlook).symm
        subst hl; rw [this]; rfl
      · have : angles = [0, 90, 180, 270] := by
          have h2 : HARMONY_ANGLES.lookup "tetradic" = some [0, 90, 180, 270] := by
            with_unfolding_all rfl
          rw [h2] at hlook
          exact (Option.some.inj hlook).symm
        subst hl; rw [this]; rfl
    rw [hroles angles rfl]
    rfl

/-- C1 witness: the scenario generate("#3b82f6", "complementary", "Ocean")
yields exactly 4 swatches with roles [primary, secondary, background,
text]. -/
theorem generate_nonmono_structure_witness :
    ∃ p, generate "pid0" "ts0" "#3b82f6" "complementary" "Ocean" = .ok p ∧
      p.colors.length = 4 ∧
      p.colors.map (fun s => s.role) = ["primary", "secondary", "background", "text"] := by
  have hsome : (generate "pid0" "ts0" "#3b82f6" "complementary" "Ocean").toOption.isSome := by
    with_unfolding_all decide
  obtain ⟨p, hp⟩ := Option.isSome_iff_exists.mp hsome
  have hok := except_toOption_ok _ _ hp
  obtain ⟨c, _, hlen, _, hrole⟩ :=
    generate_nonmono_structure "pid0" "ts0" "#3b82f6" "complementary" "Ocean" p
      (by decide) hok
  have hang : harmonyAngles "complementary" = [0, 180] := by with_unfolding_all rfl
  refine ⟨p, hok, ?_, ?_⟩
  · rw [hlen, hang]
    rfl
  · rw [hrole, hang]
    rfl

/-! ## Claim C4 -/

theorem lowHex_contains_hexChar : ∀ n : Fin 16,
    lowHexDigits.contains (hexChar (n : ℕ)) = true := by decide

theorem isNormalizedHex_mk (l : List Char) :
    isNormalizedHex (String.mk ('#' :: l))
      = (decide (l.length = 6) && l.all fun c => lowHexDigits.contains c) := rfl

theorem isNormalizedHex_rgb_to_hex (r g b : ℤ) :
    isNormalizedHex (rgb_to_hex r g b) = true := by
  set a := (max 0 (min 255 r)).toNat with ha
  set c := (max 0 (min 255 g)).toNat with hc
  set d := (max 0 (min 255 b)).toNat with hd
  have hcont : ∀ n : ℕ, n < 16 → lowHexDigits.contains (hexChar n) = true := by
    intro n hn
    simpa using lowHex_contains_hexChar ⟨n, hn⟩
  rw [rgb_to_hex, ← ha, ← hc, ← hd, byteHex, byteHex, byteHex]
  show isNormalizedHex (String.mk ('#' :: [hexChar (a / 16), hexChar (a % 16),
    hexChar (c / 16), hexChar (c % 16), hexChar (d / 16), hexChar (d % 16)])) = true
  rw [isNormalizedHex_mk]
  have hA : a ≤ 255 := Int.toNat_le.mpr (max_le (by norm_num) (min_le_left 255 r))
  have hC : c ≤ 255 := Int.toNat_le.mpr (max_le (by norm_num) (min_le_left 255 g))
  have hD : d ≤ 255 := Int.toNat_le.mpr (max_le (by norm_num) (min_le_left 255 b))
  simp only [List.length_cons, List.length_nil, List.all_cons, List.all_nil,
    hcont _ (by omega : a / 16 < 16), hcont _ (by omega : a % 16 < 16),
    hcont _ (by omega : c / 16 < 16), hcont _ (by omega : c % 16 < 16),
    hcont _ (by omega : d / 16 < 16), hcont _ (by omega : d % 16 < 16),
    Bool.and_true, Bool.and_self]
  decide

theorem isNormalizedHex_hls_hex (h l s : ℚ) : isNormalizedHex (hls_hex h l s) = true := by
  simp only [hls_hex]
  exact isNormalizedHex_rgb_to_hex _ _ _

theorem isNormalizedHex_adjust (r g b : ℕ) (d : ℚ) :
    isNormalizedHex (adjust_lightness_rgb r g b d) = true := by
  simp only [adjust_lightness_rgb]
  exact isNormalizedHex_hls_hex _ _ _

theorem isNormalizedHex_rotate (r g b : ℕ) (d : ℚ) :
    isNormalizedHex (rotate_hue_rgb r g b d) = true := by
  simp only [rotate_hue_rgb]
  exact isNormalizedHex_hls_hex _ _ _

/-- C4 counterexample: generate stores the base color with its original
casing; the uppercase input #3B82F6 is kept verbatim and is not the
lowercase normal form. -/
theorem base_color_case_counterexample :
    (generate "id0" "ts0" "#3B82F6" "complementary" "x").toOption.map Palette.base_color
      = some "#3B82F6" ∧ isNormalizedHex "#3B82F6" = false := by
  constructor
  · with_unfolding_all decide
  · decide

/-- C4 amended: every swatch hex of a generated palette is a lowercase
6-digit #rrggbb string, but the stored base color is only the cleaned and
nibble-expanded input with a hash re-attached, preserving its case. -/
theorem generate_hex_normalization (pid ts base hk nm : String) (p : Palette)
    (hok : generate pid ts base hk nm = .ok p) :
    (∀ s ∈ p.colors, isNormalizedHex s.hex = true) ∧
    p.base_color = String.mk ('#' :: expand3 (cleanHex base)) := by
  obtain ⟨angles, c, hlook, hparse, hbase, hcolors⟩ := generate_ok_inv _ _ _ _ _ _ hok
  refine ⟨?_, hbase⟩
  intro s hs
  rw [hcolors] at hs
  by_cases hm : hk = "monochromatic"
  · rw [if_pos hm, monoSwatches] at hs
    obtain ⟨q, hq, hsq⟩ := List.mem_map.mp hs
    rw [← hsq]
    exact isNormalizedHex_adjust _ _ _ _
  · rw [if_neg hm, nonmonoSwatches] at hs
    rw [List.mem_append] at hs
    rcases hs with hs | hs
    · obtain ⟨q, hq, hsq⟩ := List.mem_map.mp hs
      rw [← hsq]
      exact isNormalizedHex_rotate _ _ _ _
    · rw [List.mem_cons, List.mem_cons] at hs
      rcases hs with rfl | rfl | hs
      · exact isNormalizedHex_adjust _ _ _ _
      · exact isNormalizedHex_adjust _ _ _ _
      · simp at hs

/-- C4 witness: the normalization of every swatch hex at a concrete
generate call with 3-digit input. -/
theorem generate_hex_normalization_witness :
    ∃ p, generate "id1" "ts1" "#f00" "triadic" "" = .ok p ∧
      ∀ s ∈ p.colors, isNormalizedHex s.hex = true := by
  have hsome : (generate "id1" "ts1" "#f00" "triadic" "").toOption.isSome := by
    with_unfolding_all decide
  obtain ⟨p, hp⟩ := Option.isSome_iff_exists.mp hsome
  have hok := except_toOption_ok _ _ hp
  exact ⟨p, hok, (generate_hex_normalization _ _ _ _ _ _ hok).1⟩

/-! ## Claim C5 -/

theorem option_map_eq_some {α β : Type} (x : Option α) (f : α → β) (b : β)
    (h : x.map f = some b) : ∃ a, x = some a ∧ f a = b := by
  cases x with
  | none => exact absurd h (by simp)
  | some a =>
    simp only [Option.map_some', Option.some.injEq] at h
    exact ⟨a, rfl, h⟩

/-- C5: the audit checks are exactly the ordered cross product of the
role-partitioned foreground and background candidates (with the positional
first-two / from-index-2 fallbacks), and every check carries the contrast,
its grade, and the three threshold flags at 4.5, 3.0 and 7.0. -/
theorem a11y_check_cross_product (p : Palette) (rep : AuditReport)
    (h : a11y_check p = some rep) :
    rep.checks.map some =
      ((let f := p.colors.filter fun s => s.role ∈ ["text", "primary", "secondary", "accent"]
        if f.isEmpty then p.colors.take 2 else f).bind fun fg =>
       ((let f := p.colors.filter fun s => s.role ∈ ["background", "surface", "muted"]
        if f.isEmpty then p.colors.drop 2 else f).map fun bg => mkAuditCheck fg bg)) ∧
    rep.checks.length =
      (let f := p.colors.filter fun s => s.role ∈ ["text", "primary", "secondary", "accent"]
        if f.isEmpty then p.colors.take 2 else f).length *
      (let f := p.colors.filter fun s => s.role ∈ ["background", "surface", "muted"]
        if f.isEmpty then p.colors.drop 2 else f).length ∧
    (∀ chk ∈ rep.checks, chk.grade = wcag_grade chk.contrast ∧
      (chk.aa_normal = true ↔ 4.5 ≤ chk.contrast) ∧
      (chk.aa_large = true ↔ 3.0 ≤ chk.contrast) ∧
      (chk.aaa_normal = true ↔ 7.0 ≤ chk.contrast)) := by
  obtain ⟨rows, hrows, hfn⟩ := option_map_eq_some _ _ _ h
  rw [optionMapList_some_iff] at hrows
  have hchecks : rep.checks = rows.flatten := by rw [← hfn]
  have key : ∀ (fgs : List ColorSwatch) (rws : List (List AuditCheck)),
      List.Forall₂ (fun fg row =>
        optionMapList (fun bg => mkAuditCheck fg bg) (backgrounds p) = some row) fgs rws →
      rws.flatten.map some =
        fgs.bind fun fg => (backgrounds p).map fun bg => mkAuditCheck fg bg := by
    intro fgs rws hf
    induction hf with
    | nil => rfl
    | @cons fg row fgs' rws' hab hrest ih =>
      rw [optionMapList_some_iff] at hab
      have hrow : row.map some = (backgrounds p).map fun bg => mkAuditCheck fg bg :=
        forall₂_map_eq (fun a b h2 => h2.symm) hab
      simp only [List.flatten_cons, List.map_append, List.cons_bind]
      rw [hrow, ih]
  have hmain := key _ _ hrows
  have hlen : ∀ (fgs : List ColorSwatch),
      (fgs.bind fun fg => (backgrounds p).map fun bg => mkAuditCheck fg bg).length
        = fgs.length * (backgrounds p).length := by
    intro fgs
    induction fgs with
    | nil => simp
    | cons fg fgs ih =>
      simp only [List.cons_bind, List.length_append, List.length_map, List.length_cons, ih]
      ring
  refine ⟨?_, ?_, ?_⟩
  · rw [hchecks, hmain]
    rfl
  · have h2 := congrArg List.length hmain
    rw [List.length_map] at h2
    rw [hchecks, h2, hlen]
    rfl
  · intro chk hchk
    rw [hchecks] at hchk
    rw [List.mem_flatten] at hchk
    obtain ⟨row, hrowm, hchkrow⟩ := hchk
    obtain ⟨fg, _, hfg⟩ := forall₂_mem_right hrows row hrowm
    rw [optionMapList_some_iff] at hfg
    obtain ⟨bg, _, hbg⟩ := forall₂_mem_right hfg chk hchkrow
    obtain ⟨r0, hr0, hrec⟩ := option_map_eq_some _ _ _ hbg
    rw [← hrec]
    refine ⟨rfl, ?_, ?_, ?_⟩ <;> constructor <;> intro h2
    · by_contra hnot
      rw [if_neg hnot] at h2
      exact absurd h2 (by simp)
    · show (if 4.5 ≤ r0 then true else false) = true
      rw [if_pos h2]
    · by_contra hnot
      rw [if_neg hnot] at h2
      exact absurd h2 (by simp)
    · show (if 3.0 ≤ r0 then true else false) = true
      rw [if_pos h2]
    · by_contra hnot
      rw [if_neg hnot] at h2
      exact absurd h2 (by simp)
    · show (if 7.0 ≤ r0 then true else false) = true
      rw [if_pos h2]

/-- C5 witness: the cross product characterization applied at a concrete
palette whose candidate lists are empty, where the check list is empty. -/
theorem a11y_check_cross_product_witness :
    ∃ rep, a11y_check ⟨"pid5", "nm5", "#000000", "complementary", [], [], "", ""⟩
        = some rep ∧ rep.checks.map some = [] := by
  have h0 : a11y_check ⟨"pid5", "nm5", "#000000", "complementary", [], [], "", ""⟩
      = some ⟨"pid5", "nm5", [], ⟨0, 0, 0, 0⟩⟩ := by
    with_unfolding_all rfl
  refine ⟨_, h0, ?_⟩
  have h2 := (a11y_check_cross_product _ _ h0).1
  rw [h2]
  with_unfolding_all rfl

/-! ## Claim C10 -/

/-- C10: the audit never fails on a palette whose swatch hexes parse, and
when the check set is empty the summary is all zeros — the pass-rate
division is guarded by max 1 and never divides by zero. -/
theorem a11y_check_total_empty (p : Palette)
    (hvalid : ∀ s ∈ p.colors, (hex_to_rgb s.hex).isSome) :
    ∃ rep, a11y_check p = some rep ∧
      (rep.checks = [] → rep.summary.total = 0 ∧ rep.summary.pass_aa = 0 ∧
        rep.summary.fail_aa = 0 ∧ rep.summary.pass_rate = 0) := by
  have hfg : ∀ fg ∈ foregrounds p, fg ∈ p.colors := by
    intro fg h
    rw [foregrounds] at h
    split_ifs at h with h2
    · exact List.take_subset 2 p.colors h
    · exact (List.mem_filter.mp h).1
  have hbg : ∀ bg ∈ backgrounds p, bg ∈ p.colors := by
    intro bg h
    rw [backgrounds] at h
    split_ifs at h with h2
    · exact List.drop_subset 2 p.colors h
    · exact (List.mem_filter.mp h).1
  have hlum : ∀ s ∈ p.colors, (relative_luminance s.hex).isSome := by
    intro s hs
    rw [relative_luminance, Option.isSome_map']
    exact hvalid s hs
  have hmk : ∀ fg ∈ foregrounds p, ∀ bg ∈ backgrounds p, (mkAuditCheck fg bg).isSome := by
    intro fg hfgm bg hbgm
    obtain ⟨l1, hl1⟩ := Option.isSome_iff_exists.mp (hlum fg (hfg fg hfgm))
    obtain ⟨l2, hl2⟩ := Option.isSome_iff_exists.mp (hlum bg (hbg bg hbgm))
    rw [mkAuditCheck, Option.isSome_map', wcag_contrast, hl1, option_bind_some, hl2,
      option_bind_some]
    rfl
  have hrows : (optionMapList (fun fg => optionMapList (fun bg => mkAuditCheck fg bg)
      (backgrounds p)) (foregrounds p)).isSome := by
    rw [optionMapList_isSome_iff]
    intro fg hfgm
    rw [optionMapList_isSome_iff]
    intro bg hbgm
    exact hmk fg hfgm bg hbgm
  obtain ⟨rows, hrows'⟩ := Option.isSome_iff_exists.mp hrows
  have hc : a11y_check p = some
      { palette_id := p.id, palette_name := p.name, checks := rows.flatten,
        summary :=
          { total := rows.flatten.length,
            pass_aa := (rows.flatten.filter fun c => c.aa_normal).length,
            fail_aa := rows.flatten.length
              - (rows.flatten.filter fun c => c.aa_normal).length,
            pass_rate := pyRound 1
              (((rows.flatten.filter fun c => c.aa_normal).length : ℚ)
                / ((max 1 rows.flatten.length : ℕ) : ℚ) * 100) } } := by
    rw [a11y_check, hrows']
    rfl
  refine ⟨_, hc, ?_⟩
  intro hempty
  have h0 : rows.flatten = [] := hempty
  refine ⟨?_, ?_, ?_, ?_⟩
  · show rows.flatten.length = 0
    rw [h0]
    rfl
  · show (rows.flatten.filter fun c => c.aa_normal).length = 0
    rw [h0]
    rfl
  · show rows.flatten.length - (rows.flatten.filter fun c => c.aa_normal).length = 0
    rw [h0]
    rfl
  · show pyRound 1 (((rows.flatten.filter fun c => c.aa_normal).length : ℚ)
        / ((max 1 rows.flatten.length : ℕ) : ℚ) * 100) = 0
    rw [h0]
    show pyRound 1 ((0 : ℚ) / ((1 : ℕ) : ℚ) * 100) = 0
    norm_num [pyRound, roundEvenQ]

/-- C10 witness: the guarded empty summary at a concrete two-swatch palette
with no background roles. -/
theorem a11y_check_total_empty_witness :
    ∃ rep, a11y_check ⟨"pidX", "nmX", "#000000", "complementary",
        [⟨"#000000", "a", "primary", 0, 0, 0⟩, ⟨"#ffffff", "b", "secondary", 0, 0, 0⟩],
        [], "", ""⟩ = some rep ∧
      rep.summary.total = 0 ∧ rep.summary.pass_aa = 0 ∧ rep.summary.fail_aa = 0 ∧
      rep.summary.pass_rate = 0 := by
  obtain ⟨rep, hrep, himp⟩ := a11y_check_total_empty
    ⟨"pidX", "nmX", "#000000", "complementary",
      [⟨"#000000", "a", "primary", 0, 0, 0⟩, ⟨"#ffffff", "b", "secondary", 0, 0, 0⟩],
      [], "", ""⟩ (by with_unfolding_all decide)
  have h0 : a11y_check ⟨"pidX", "nmX", "#000000", "complementary",
      [⟨"#000000", "a", "primary", 0, 0, 0⟩, ⟨"#ffffff", "b", "secondary", 0, 0, 0⟩],
      [], "", ""⟩ = some ⟨"pidX", "nmX", [], ⟨0, 0, 0, 0⟩⟩ := by
    with_unfolding_all rfl
  have hrr : rep = ⟨"pidX", "nmX", [], ⟨0, 0, 0, 0⟩⟩ :=
    Option.some.inj (hrep.symm.trans h0)
  refine ⟨rep, hrep, himp ?_⟩
  rw [hrr]

/-! ## Claim C6 -/

theorem linearize_nonneg (c : ℕ) : 0 ≤ linearize c := by
  simp only [linearize]
  split_ifs with h
  · positivity
  · exact Real.rpow_nonneg (by positivity) _

theorem linearize_le_one (c : ℕ) (hc : c ≤ 255) : linearize c ≤ 1 := by
  have hx : ((c : ℝ) / 255) ≤ 1 := by
    rw [div_le_one (by norm_num : (0:ℝ) < 255)]
    exact_mod_cast hc
  simp only [linearize]
  split_ifs with h
  · have h9 := (div_le_div_right (show (0:ℝ) < 12.92 by norm_num)).mpr h
    linarith [h9, show (3928e-5 : ℝ) / 12.92 ≤ 1 by norm_num]
  · have hbase : ((c : ℝ) / 255 + 0.055) / 1.055 ≤ 1 := by
      rw [div_le_one (by norm_num : (0:ℝ) < 1.055)]
      linarith
    exact Real.rpow_le_one (by positivity) hbase (by norm_num)

theorem relative_luminance_bounds (s : String) (L : ℝ)
    (h : relative_luminance s = some L) : 0 ≤ L ∧ L ≤ 1 := by
  rw [relative_luminance] at h
  obtain ⟨c, hc, hL⟩ := option_map_eq_some _ _ _ h
  obtain ⟨h1, h2, h3⟩ := hex_to_rgb_le_255 s c.1 c.2.1 c.2.2 (by rw [hc])
  have n1 := linearize_nonneg c.1
  have n2 := linearize_nonneg c.2.1
  have n3 := linearize_nonneg c.2.2
  have u1 := linearize_le_one c.1 h1
  have u2 := linearize_le_one c.2.1 h2
  have u3 := linearize_le_one c.2.2 h3
  constructor
  · rw [← hL]; nlinarith
  · rw [← hL]; nlinarith

theorem roundEvenR_bounds (y : ℝ) (m M : ℤ) (h1 : (m : ℝ) ≤ y) (h2 : y ≤ (M : ℝ)) :
    m ≤ roundEvenR y ∧ roundEvenR y ≤ M := by
  have hfl : m ≤ ⌊y⌋ := Int.le_floor.mpr h1
  have hfu : ⌊y⌋ ≤ M := by
    calc ⌊y⌋ ≤ ⌊(M : ℝ)⌋ := Int.floor_le_floor h2
    _ = M := Int.floor_intCast M
  have hhalf : ∀ h3 : (⌊y⌋ : ℝ) + 1/2 ≤ y, ⌊y⌋ + 1 ≤ M := by
    intro h3
    by_contra hnot
    push_neg at hnot
    have he : ⌊y⌋ = M := by omega
    rw [he] at h3
    linarith
  rw [roundEvenR]
  split_ifs with ha hb hc
  · exact ⟨hfl, hfu⟩
  · exact ⟨by omega, hhalf (by linarith)⟩
  · exact ⟨hfl, hfu⟩
  · have h3 : y - ⌊y⌋ = 1/2 := le_antisymm (not_lt.mp hb) (not_lt.mp ha)
    exact ⟨by omega, hhalf (by linarith)⟩

theorem pyRoundR_bounds_2dec (x : ℝ) (h1 : 1 ≤ x) (h2 : x ≤ 21) :
    1 ≤ pyRoundR 2 x ∧ pyRoundR 2 x ≤ 21 := by
  have hb := roundEvenR_bounds (x * 10 ^ 2) 100 2100
    (by push_cast; linarith) (by push_cast; linarith)
  have hc1 : (100 : ℝ) ≤ (roundEvenR (x * 10 ^ 2) : ℝ) := by exact_mod_cast hb.1
  have hc2 : ((roundEvenR (x * 10 ^ 2) : ℝ)) ≤ 2100 := by exact_mod_cast hb.2
  rw [pyRoundR]
  constructor
  · rw [le_div_iff (by norm_num : (0:ℝ) < 10 ^ 2)]
    linarith
  · rw [div_le_iff (by norm_num : (0:ℝ) < 10 ^ 2)]
    linarith

theorem pyRoundR_int (z : ℤ) : pyRoundR 2 ((z : ℝ)) = (z : ℝ) := by
  rw [pyRoundR, roundEvenR]
  have hz : (z : ℝ) * 10 ^ 2 = ((z * 100 : ℤ) : ℝ) := by push_cast; ring
  rw [hz, Int.floor_intCast]
  rw [if_pos (by norm_num)]
  push_cast
  ring

theorem wcag_symm (a b : String) : wcag_contrast a b = wcag_contrast b a := by
  rw [wcag_contrast, wcag_contrast]
  cases h1 : relative_luminance a with
  | none =>
    cases h2 : relative_luminance b with
    | none => rfl
    | some l2 => rw [option_bind_none, option_bind_some, option_bind_none]
  | some l1 =>
    cases h2 : relative_luminance b with
    | none => rw [option_bind_none, option_bind_some, option_bind_none]
    | some l2 =>
      rw [option_bind_some, option_bind_some, option_bind_some, option_bind_some]
      rw [max_comm, min_comm]

theorem wcag_self (c : String) (t : ℕ × ℕ × ℕ) (h : hex_to_rgb c = some t) :
    wcag_contrast c c = some 1 := by
  have hlum : relative_luminance c = some (0.2126 * linearize t.1
      + 0.7152 * linearize t.2.1 + 0.0722 * linearize t.2.2) := by
    rw [relative_luminance, h]
    rfl
  have hpos : (0 : ℝ) ≤ 0.2126 * linearize t.1 + 0.7152 * linearize t.2.1
      + 0.0722 * linearize t.2.2 := (relative_luminance_bounds c _ hlum).1
  rw [wcag_contrast, hlum, option_bind_some, option_bind_some]
  congr 1
  rw [max_self, min_self, div_self (by linarith)]
  have h1 : ((1 : ℤ) : ℝ) = (1 : ℝ) := by norm_num
  rw [← h1, pyRoundR_int, h1]

theorem wcag_black_white : wcag_contrast "#000000" "#ffffff" = some 21 := by
  have hp0 : hex_to_rgb "#000000" = some (0, 0, 0) := by decide
  have hp1 : hex_to_rgb "#ffffff" = some (255, 255, 255) := by decide
  have hl0 : linearize 0 = 0 := by
    simp only [linearize]
    rw [if_pos (by norm_num)]
    norm_num
  have hl255 : linearize 255 = 1 := by
    simp only [linearize]
    rw [if_neg (by norm_num)]
    have hbase : (((255 : ℕ) : ℝ) / 255 + 0.055) / 1.055 = 1 := by norm_num
    rw [hbase]
    exact Real.one_rpow _
  have hL0 : relative_luminance "#000000" = some 0 := by
    rw [relative_luminance, hp0]
    show some (0.2126 * linearize 0 + 0.7152 * linearize 0 + 0.0722 * linearize 0)
      = some (0 : ℝ)
    rw [hl0]
    norm_num
  have hL1 : relative_luminance "#ffffff" = some 1 := by
    rw [relative_luminance, hp1]
    show some (0.2126 * linearize 255 + 0.7152 * linearize 255 + 0.0722 * linearize 255)
      = some (1 : ℝ)
    rw [hl255]
    norm_num
  rw [wcag_contrast, hL0, option_bind_some, hL1, option_bind_some]
  congr 1
  have hraw : (max (0:ℝ) 1 + 0.05) / (min (0:ℝ) 1 + 0.05) = 21 := by norm_num
  rw [hraw]
  have h21 : ((21 : ℤ) : ℝ) = (21 : ℝ) := by norm_num
  rw [← h21, pyRoundR_int, h21]

theorem wcag_range (a b : String) (r : ℝ) (h : wcag_contrast a b = some r) :
    1 ≤ r ∧ r ≤ 21 := by
  rw [wcag_contrast] at h
  cases h1 : relative_luminance a with
  | none => rw [h1, option_bind_none] at h; exact absurd h (by simp)
  | some l1 =>
    rw [h1, option_bind_some] at h
    cases h2 : relative_luminance b with
    | none => rw [h2, option_bind_none] at h; exact absurd h (by simp)
    | some l2 =>
      rw [h2, option_bind_some] at h
      have hr : pyRoundR 2 ((max l1 l2 + 0.05) / (min l1 l2 + 0.05)) = r :=
        Option.some.inj h
      obtain ⟨hl1a, hl1b⟩ := relative_luminance_bounds a l1 h1
      obtain ⟨hl2a, hl2b⟩ := relative_luminance_bounds b l2 h2
      have hminnn : (0 : ℝ) ≤ min l1 l2 := le_min hl1a hl2a
      have hmaxle : max l1 l2 ≤ 1 := max_le hl1b hl2b
      have hminmax : min l1 l2 ≤ max l1 l2 := min_le_max
      have hrawlo : 1 ≤ (max l1 l2 + 0.05) / (min l1 l2 + 0.05) := by
        rw [one_le_div (by linarith)]
        linarith
      have hrawhi : (max l1 l2 + 0.05) / (min l1 l2 + 0.05) ≤ 21 := by
        have h3 : (max l1 l2 + 0.05) / (min l1 l2 + 0.05) ≤ 1.05 / 0.05 :=
          div_le_div (by norm_num) (by linarith) (by norm_num) (by linarith)
        linarith [h3, show (1.05 : ℝ) / 0.05 = 21 by norm_num]
      rw [← hr]
      exact pyRoundR_bounds_2dec _ hrawlo hrawhi

/-- C6: the contrast ratio is symmetric, equals exactly 1.0 on identical
colors, equals exactly 21.0 on black versus white, and always lies in
[1.0, 21.0]. -/
theorem wcag_contrast_properties :
    (∀ a b, wcag_contrast a b = wcag_contrast b a) ∧
    (∀ c t, hex_to_rgb c = some t → wcag_contrast c c = some 1) ∧
    wcag_contrast "#000000" "#ffffff" = some 21 ∧
    (∀ a b r, wcag_contrast a b = some r → 1 ≤ r ∧ r ≤ 21) :=
  ⟨wcag_symm, wcag_self, wcag_black_white, wcag_range⟩

/-- C6 witness: the self-contrast component applied at the concrete color
#3b82f6. -/
theorem wcag_contrast_properties_witness : wcag_contrast "#3b82f6" "#3b82f6" = some 1 :=
  wcag_contrast_properties.2.1 "#3b82f6" (59, 130, 246) (by decide)
